import Mathlib

/-! ezTV: a shallow embedding of `eztv.go`.

The Go package scrapes a torrent index.  Its pure core is the loop of
`GetShowDetails` that walks the anchors of the episode rows and fills
`episodes : map[string]map[string]EpisodeSimple`.  The document fetch and
the selector engine of goquery are external; they appear here as data
(`Document`, `Node`) and as a parameter (`net`).

Go maps are embedded as association lists read through `mapGet` and
written through `mapSet`.  A missing outer key and an outer key bound to a
nil inner map are indistinguishable to the source (both read as the zero
value and both fail the test `episodes[epid] != nil`), so both are the
lookup result `none`.
-/

namespace EzTV

/-! ## Errors and records (eztv.go, lines 11-50) -/

/-- The package's sentinel errors, plus the errors handed back by
`goquery.NewDocument`, which are values of another package and therefore
never identical to one of the sentinels. -/
inductive GoError where
  | ErrEpisodeNotFound
  | ErrShowNotFound
  | ErrEmptyResponse
  | ErrInvalidArgument
  | ErrMissingArgument
  | fetchError (msg : String)
  deriving DecidableEq, Repr

/-- The record `ShowSimple`. -/
structure ShowSimple where
  Title : String
  URL : String
  deriving DecidableEq, Repr

/-- The record `EpisodeSimple`; the Go zero value is all fields empty. -/
structure EpisodeSimple where
  Title : String
  URL : String
  Magnet : String
  deriving DecidableEq, Repr

/-- The Go zero value of `EpisodeSimple`, read from a missing map key. -/
def EpisodeSimple.zero : EpisodeSimple := ⟨"", "", ""⟩

/-! ## Go maps as association lists -/

/-- Reading `m[k]` with the comma-ok form: the first binding of `k`. -/
def mapGet {V : Type} : List (String × V) → String → Option V
  | [], _ => none
  | (k', v) :: rest, k => if k' = k then some v else mapGet rest k

/-- Writing `m[k] = v`: replace the binding of `k`, or add one. -/
def mapSet {V : Type} : List (String × V) → String → V → List (String × V)
  | [], k, v => [(k, v)]
  | (k', v') :: rest, k, v =>
    if k' = k then (k, v) :: rest else (k', v') :: mapSet rest k v

/-- The inner map `map[string]EpisodeSimple`, keyed by quality. -/
abbrev QualityMap := List (String × EpisodeSimple)

/-- The outer map `map[string]map[string]EpisodeSimple`, keyed by episode id. -/
abbrev EpisodeMap := List (String × QualityMap)

/-- The Go expression `episodes[epid][quality]` used as a value: a missing
outer key gives a nil inner map, and reading a nil or missing inner key
gives the zero record. -/
def EpisodeMap.at (episodes : EpisodeMap) (epid quality : String) : EpisodeSimple :=
  match mapGet episodes epid with
  | none => EpisodeSimple.zero
  | some inner =>
    match mapGet inner quality with
    | none => EpisodeSimple.zero
    | some v => v

/-- Presence-aware lookup of the variant stored at `(epid, quality)`. -/
def EpisodeMap.variant (episodes : EpisodeMap) (epid quality : String) : Option EpisodeSimple :=
  match mapGet episodes epid with
  | none => none
  | some inner => mapGet inner quality

/-- The record `ShowDetails`. -/
structure ShowDetails where
  Title : String
  URL : String
  Cover : String
  Episodes : EpisodeMap
  deriving DecidableEq, Repr

/-- The record `EpisodeDetails`; `Ratio` is a float32 that no code path
ever computes, kept as its bit pattern. -/
structure EpisodeDetails where
  Title : String
  URL : String
  Description : String
  Cover : String
  Magnet : String
  Ratio : Nat
  deriving DecidableEq, Repr

/-! ## The goquery boundary -/

/-- What the source reads of one matched node: `Text()`, `Attr(name)` and
`HasClass(name)`. -/
structure Node where
  text : String
  attrs : List (String × String)
  classes : List String
  deriving DecidableEq, Repr

/-- The call `s.Text()`. -/
def Node.Text (s : Node) : String := s.text

/-- The call `s.Attr(name)`: the value and whether the attribute exists. -/
def Node.Attr (s : Node) (name : String) : Option String := mapGet s.attrs name

/-- The call `s.HasClass(name)`. -/
def Node.HasClass (s : Node) (name : String) : Bool := decide (name ∈ s.classes)

/-- A matched element together with the anchors that
`s.Children().Find("a")` yields below it, in document order. -/
structure Element where
  node : Node
  anchors : List Node
  deriving DecidableEq, Repr

/-- A fetched document: `Find` evaluates a selector string to the matched
elements in document order. -/
structure Document where
  Find : String → List Element

/-- The call `Selection.Text()` on a whole selection: the texts of the
matched elements, concatenated. -/
def selText (sel : List Element) : String :=
  sel.foldl (fun acc e => acc ++ e.node.text) ""

/-- The call `Selection.Attr(name)` on a whole selection: the attribute of the
first matched element. -/
def selAttr (sel : List Element) (name : String) : Option String :=
  match sel with
  | [] => none
  | e :: _ => e.node.Attr name

/-! ## Identifier extraction (eztv.go, lines 95-98) -/

/-- One character of the class `[0-9]`. -/
def isDigit09 (c : Char) : Bool := decide ('0' ≤ c) && decide (c ≤ '9')

/-- Anchored match of `S[0-9]{2}E[0-9]{2}` at the head of the input; the
matched text when it matches. -/
def epidMatchAt : List Char → Option (List Char)
  | s :: a :: b :: e :: c :: d :: _ =>
    if s = 'S' ∧ isDigit09 a ∧ isDigit09 b ∧ e = 'E' ∧ isDigit09 c ∧ isDigit09 d then
      some [s, a, b, e, c, d]
    else none
  | _ => none

/-- Anchored match of `[0-9]{3,4}p` at the head of the input.  The counted
repetition is greedy, so four digits are tried before three. -/
def qualityMatchAt : List Char → Option (List Char)
  | a :: b :: c :: rest =>
    if isDigit09 a ∧ isDigit09 b ∧ isDigit09 c then
      match rest with
      | d :: e :: _ =>
        if isDigit09 d ∧ e = 'p' then some [a, b, c, d, e]
        else if d = 'p' then some [a, b, c, d]
        else none
      | [d] => if d = 'p' then some [a, b, c, d] else none
      | [] => none
    else none
  | _ => none

/-- The leftmost position at which the anchored matcher succeeds. -/
def findLeftmost (m : List Char → Option (List Char)) : List Char → Option (List Char)
  | [] => m []
  | c :: cs =>
    match m (c :: cs) with
    | some r => some r
    | none => findLeftmost m cs

/-- The call `re.FindString(s)`: the text of the leftmost match, or the empty
string when there is none. -/
def FindString (m : List Char → Option (List Char)) (s : String) : String :=
  match findLeftmost m s.data with
  | some r => String.mk r
  | none => ""

/-- The compiled `epidRe`. -/
def epidRe : List Char → Option (List Char) := epidMatchAt

/-- The compiled `qualityRe`. -/
def qualityRe : List Char → Option (List Char) := qualityMatchAt

/-- Lines 110-113 and 131-134: the quality token, or `hdtv` when the regex
finds nothing. -/
def qualityOf (info : String) : String :=
  let quality := FindString qualityRe info
  if quality = "" then "hdtv" else quality

/-! ## The correlator (eztv.go, lines 99-150) -/

/-- The body of the inner `Each` callback (lines 102-149) for one anchor. -/
def processAnchor (episodes : EpisodeMap) (s : Node) : EpisodeMap :=
  let info := s.Text
  if info ≠ "" then
    match s.Attr "href" with
    | some href =>
      let epid := FindString epidRe info
      let quality := qualityOf info
      match mapGet episodes epid with
      | some inner =>
        mapSet episodes epid (mapSet inner quality ⟨info, href, ""⟩)
      | none =>
        mapSet episodes epid [(quality, ⟨info, href, ""⟩)]
    | none => episodes
  else if s.HasClass "magnet" then
    match s.Attr "title" with
    | none => episodes
    | some info =>
      match s.Attr "href" with
      | none => episodes
      | some href =>
        let epid := FindString epidRe info
        let quality := qualityOf info
        if (episodes.at epid quality).Title ≠ "" ∧ (episodes.at epid quality).URL ≠ "" then
          -- a non-empty title was read, so the inner map is there; writing
          -- through a nil inner map would stop the Go program instead
          match mapGet episodes epid with
          | some inner =>
            mapSet episodes epid
              (mapSet inner quality
                ⟨(episodes.at epid quality).Title, (episodes.at epid quality).URL, href⟩)
          | none => episodes
        else
          mapSet episodes epid [(quality, ⟨"", "", href⟩)]
  else episodes

/-- The inner `Each` over the anchors of one row. -/
def processRow (episodes : EpisodeMap) (row : Element) : EpisodeMap :=
  row.anchors.foldl processAnchor episodes

/-- The outer `Each` over the rows matched by `tr.forum_header_border`,
started from `make(map[string]map[string]EpisodeSimple)`. -/
def correlate (rows : List Element) : EpisodeMap :=
  rows.foldl processRow []

/-- The correlator run over a bare anchor sequence from a given index. -/
def correlateFrom (episodes : EpisodeMap) (anchors : List Node) : EpisodeMap :=
  anchors.foldl processAnchor episodes

/-! ## The query functions (eztv.go, lines 52-171) -/

/-- What one call hands back: the pointer result (`none` for nil), the
error (`none` for nil), and the URLs given to `goquery.NewDocument`, in
call order. -/
structure Call (α : Type) where
  result : Option α
  err : Option GoError
  fetched : List String

/-- The fetch `goquery.NewDocument`, a parameter of the queries. -/
abbrev Net := String → Except String Document

/-- The function `SearchShow` (lines 54-83). -/
def SearchShow (net : Net) (keyword : String) : Call (List ShowSimple) :=
  if keyword = "" then
    ⟨none, some GoError.ErrMissingArgument, []⟩
  else
    match net "https://eztv.ag/showlist/" with
    | Except.error e => ⟨none, some (GoError.fetchError e), ["https://eztv.ag/showlist/"]⟩
    | Except.ok doc =>
      let showsRaw := doc.Find ("a.thread_link:contains('" ++ keyword ++ "')")
      if showsRaw.length < 1 then
        ⟨none, some GoError.ErrEmptyResponse, ["https://eztv.ag/showlist/"]⟩
      else
        let shows : List ShowSimple :=
          showsRaw.map (fun s => ⟨s.node.Text, (s.node.Attr "href").getD ""⟩)
        if shows.length = 0 then
          ⟨none, some GoError.ErrShowNotFound, ["https://eztv.ag/showlist/"]⟩
        else
          ⟨some shows, none, ["https://eztv.ag/showlist/"]⟩

/-- The function `GetShowDetails` (lines 86-166). -/
def GetShowDetails (net : Net) (URL : String) : Call ShowDetails :=
  if URL = "" then
    ⟨none, some GoError.ErrMissingArgument, []⟩
  else
    match net ("https://eztv.ag" ++ URL) with
    | Except.error e => ⟨none, some (GoError.fetchError e), ["https://eztv.ag" ++ URL]⟩
    | Except.ok doc =>
      let episodes := correlate (doc.Find "tr.forum_header_border")
      let title := selText (doc.Find "b > span[itemprop='name']")
      let cover := (selAttr (doc.Find ".show_info_main_logo > img:nth-child(1)") "src").getD ""
      ⟨some ⟨title, URL, cover, episodes⟩, none, ["https://eztv.ag" ++ URL]⟩

/-- The function `GetEpisodeDetails` (lines 169-171): `return nil, nil`. -/
def GetEpisodeDetails (_URL : String) : Call EpisodeDetails :=
  ⟨none, none, []⟩

/-- The label from which an anchor's key is extracted: the visible text
when there is one, the `title` attribute otherwise. -/
def anchorLabel (s : Node) : Option String :=
  if s.Text ≠ "" then some s.Text else s.Attr "title"

/-- The episode identifier an anchor's label yields, when it has a label. -/
def anchorEpid (s : Node) : Option String :=
  (anchorLabel s).map (FindString epidRe)

/-- The token form of the spec, for comparison with `epidRe`: capital S,
two decimal digits, capital E, two decimal digits, and nothing else. -/
def isEpidToken : List Char → Bool
  | [s, a, b, e, c, d] =>
    decide (s = 'S') && a.isDigit && b.isDigit && decide (e = 'E') && c.isDigit && d.isDigit
  | _ => false

/-! ## Inputs used by the closed statements below -/

/-- An episode-link anchor: visible text and an href. -/
def linkAnchor (text href : String) : Node := ⟨text, [("href", href)], []⟩

/-- A magnet anchor: no visible text, class `magnet`, a title and an href. -/
def magnetAnchor (title href : String) : Node :=
  ⟨"", [("title", title), ("href", href)], ["magnet"]⟩

/-- An index in which a magnet was recorded before its episode link. -/
def magnetFirstIndex : EpisodeMap :=
  [("S01E01", [("hdtv", ⟨"", "", "magnet:?xt=aaa"⟩)])]

/-- An index holding the 720p rendition of one episode, as left by its
episode-link anchor. -/
def oneQualityIndex : EpisodeMap :=
  [("S01E01", [("720p", ⟨"X S01E01 720p", "/ep1", ""⟩)])]

/-- An index holding a complete link-created entry. -/
def linkedIndex : EpisodeMap :=
  [("S02E05", [("1080p", ⟨"Show Name S02E05 1080p", "/ep1", ""⟩)])]

/-- A fetch that always fails. -/
def offlineNet : Net := fun _ => Except.error "offline"

/-- A fetch that always yields a page without any matching element. -/
def blankNet : Net := fun _ => Except.ok ⟨fun _ => []⟩

/-- The run of the spec, for comparison with `qualityRe`: three decimal
digits immediately followed by a lowercase p. -/
def isThreeDigitsP : List Char → Bool
  | [a, b, c, p] => a.isDigit && b.isDigit && c.isDigit && decide (p = 'p')
  | _ => false

/-- The resolution token of the spec: three or four decimal digits followed
by a lowercase p. -/
def isQualityToken : List Char → Bool
  | [a, b, c, p] => a.isDigit && b.isDigit && c.isDigit && decide (p = 'p')
  | [a, b, c, d, p] => a.isDigit && b.isDigit && c.isDigit && d.isDigit && decide (p = 'p')
  | _ => false

/-- The selector that `SearchShow` builds from the keyword with
`fmt.Sprintf` (line 64). -/
def threadLinkSelector (keyword : String) : String :=
  "a.thread_link:contains('" ++ keyword ++ "')"

/-- The `ShowSimple` that the `Each` callback of `SearchShow` (lines 71-75)
fills in for one matched anchor. -/
def showOfAnchor (s : Element) : ShowSimple :=
  ⟨s.node.Text, (s.node.Attr "href").getD ""⟩

/-- A show page with two episode rows, a title span and a logo image. -/
def samplePage : Document :=
  ⟨fun sel =>
    if sel = "tr.forum_header_border" then
      [⟨⟨"", [], ["forum_header_border"]⟩,
          [linkAnchor "X S01E01 720p" "/ep1", magnetAnchor "X S01E01 720p" "magnet:?xt=aaa"]⟩,
        ⟨⟨"", [], ["forum_header_border"]⟩, [linkAnchor "X S01E02" "/ep2"]⟩]
    else if sel = "b > span[itemprop='name']" then [⟨⟨"X", [("itemprop", "name")], []⟩, []⟩]
    else if sel = ".show_info_main_logo > img:nth-child(1)" then
      [⟨⟨"", [("src", "/img/x.png")], []⟩, []⟩]
    else []⟩

/-- A directory page on which the selector for the keyword `Lost` matches
two anchors, the second one without href. -/
def sampleDirectory : Document :=
  ⟨fun sel =>
    if sel = "a.thread_link:contains('Lost')" then
      [⟨⟨"Lost", [("href", "/shows/1/lost/")], ["thread_link"]⟩, []⟩,
        ⟨⟨"Lost Girl", [], ["thread_link"]⟩, []⟩]
    else []⟩

/-- The variant `v` is stored in the index under episode `e` and quality
`q`. -/
def Stored (m : EpisodeMap) (e q : String) (v : EpisodeSimple) : Prop :=
  ∃ inner, (e, inner) ∈ m ∧ (q, v) ∈ inner

/-- What one anchor can write at its key: the record of a link, the fresh
record of a magnet, or the record that a magnet merges into a stored
variant whose title and url are both there. -/
def Written (m : EpisodeMap) (s : Node) (label : String) (v : EpisodeSimple) : Prop :=
  (s.Text ≠ "" ∧ label = s.Text ∧ ∃ u, s.Attr "href" = some u ∧ v = ⟨s.Text, u, ""⟩) ∨
  (s.Text = "" ∧ s.HasClass "magnet" = true ∧ s.Attr "title" = some label ∧
    ∃ h, s.Attr "href" = some h ∧
      (v = ⟨"", "", h⟩ ∨
        ∃ old, Stored m (FindString epidRe label) (qualityOf label) old ∧
          old.Title ≠ "" ∧ old.URL ≠ "" ∧ v = ⟨old.Title, old.URL, h⟩))

/-- Where a stored variant comes from, read off the anchor sequence: with
an empty title it is the fresh record of a magnet anchor of its key; with a
non-empty title its title and url are the text and the href of an
episode-link anchor of its key. -/
def VariantProvenance (anchors : List Node) (e q : String) (v : EpisodeSimple) : Prop :=
  (v.Title = "" ∧ v.URL = "" ∧
    ∃ a ∈ anchors, a.Text = "" ∧ a.HasClass "magnet" = true ∧
      a.Attr "href" = some v.Magnet ∧
      ∃ t, a.Attr "title" = some t ∧ FindString epidRe t = e ∧ qualityOf t = q) ∨
  (v.Title ≠ "" ∧
    ∃ a ∈ anchors, a.Text = v.Title ∧ a.Attr "href" = some v.URL ∧
      FindString epidRe a.Text = e ∧ qualityOf a.Text = q)

/-- An episode-link anchor and the magnet anchor that follows it. -/
structure AnchorPair where
  link : Node
  magnet : Node
  deriving DecidableEq, Repr

/-- The pair of the common case: the link has non-empty text and a
non-empty href, and the magnet that follows has a title that yields the
same key, and an href. -/
def AnchorPair.WellFormed (p : AnchorPair) : Prop :=
  p.link.Text ≠ "" ∧
  (∃ u, p.link.Attr "href" = some u ∧ u ≠ "") ∧
  p.magnet.Text = "" ∧ p.magnet.HasClass "magnet" = true ∧
  (∃ t, p.magnet.Attr "title" = some t ∧
    FindString epidRe t = FindString epidRe p.link.Text ∧
    qualityOf t = qualityOf p.link.Text) ∧
  (∃ h, p.magnet.Attr "href" = some h)

/-- The two anchors of a pair in document order. -/
def AnchorPair.anchors (p : AnchorPair) : List Node := [p.link, p.magnet]

/-- The variant a pair stands for: the link's text and href, the magnet's
href. -/
def AnchorPair.expected (p : AnchorPair) : EpisodeSimple :=
  ⟨p.link.Text, (p.link.Attr "href").getD "", (p.magnet.Attr "href").getD ""⟩

/-- Whether the label of the pair's link yields the key `(e, q)`. -/
def AnchorPair.hasKey (p : AnchorPair) (e q : String) : Bool :=
  decide (FindString epidRe p.link.Text = e) && decide (qualityOf p.link.Text = q)

/-- The last pair of the sequence whose key is `(e, q)`. -/
def lastPairAt (pairs : List AnchorPair) (e q : String) : Option AnchorPair :=
  pairs.reverse.find? (fun p => p.hasKey e q)

/-- Three pairs: two renditions of one episode, then the first rendition
again with other addresses. -/
def samplePairs : List AnchorPair :=
  [⟨linkAnchor "X S01E01 720p" "/a", magnetAnchor "X S01E01 720p" "magnet:?xt=a"⟩,
    ⟨linkAnchor "X S01E01 1080p" "/b", magnetAnchor "X.S01E01.1080p" "magnet:?xt=b"⟩,
    ⟨linkAnchor "X S01E01 720p" "/c", magnetAnchor "X S01E01 720p" "magnet:?xt=c"⟩]

/-! ## Reading and writing maps -/

theorem mapGet_mapSet_self {V : Type} (m : List (String × V)) (k : String) (v : V) :
    mapGet (mapSet m k v) k = some v := by
  induction m with
  | nil => simp [mapSet, mapGet]
  | cons p rest ih =>
    obtain ⟨k', v'⟩ := p
    by_cases h : k' = k
    · simp [mapSet, mapGet, h]
    · simp [mapSet, mapGet, h, ih]

theorem mapGet_mapSet_ne {V : Type} (m : List (String × V)) (k k2 : String) (v : V)
    (hne : k2 ≠ k) : mapGet (mapSet m k v) k2 = mapGet m k2 := by
  induction m with
  | nil =>
    have h : ¬ k = k2 := fun h => hne h.symm
    simp [mapSet, mapGet, h]
  | cons p rest ih =>
    obtain ⟨k', v'⟩ := p
    by_cases h : k' = k
    · subst h
      have h2 : ¬ k' = k2 := fun h => hne h.symm
      simp [mapSet, mapGet, h2]
    · by_cases h3 : k' = k2
      · simp [mapSet, mapGet, h, h3]
        simp [h3.symm ▸ h, mapGet]
      · simp [mapSet, mapGet, h, h3, ih]

/-- Writing one quality of one episode, as both branches of the link
upsert do, leaves that variant readable at its key. -/
theorem variant_mapSet_self (episodes : EpisodeMap) (e q : String) (inner : QualityMap)
    (v : EpisodeSimple)
    (hq : mapGet inner q = some v) :
    EpisodeMap.variant (mapSet episodes e inner) e q = some v := by
  simp [EpisodeMap.variant, mapGet_mapSet_self, hq]

/-- Writing the inner map of episode `e` does not touch another episode. -/
theorem variant_mapSet_other (episodes : EpisodeMap) (e e2 q2 : String) (inner : QualityMap)
    (hne : e2 ≠ e) :
    EpisodeMap.variant (mapSet episodes e inner) e2 q2 = EpisodeMap.variant episodes e2 q2 := by
  simp [EpisodeMap.variant, mapGet_mapSet_ne _ _ _ _ hne]

/-! ## One anchor at a time -/

/-- The link upsert (lines 106-119): the variant at the anchor's key after
the anchor is a fresh record with an empty magnet, whatever was there. -/
theorem processAnchor_link_variant (episodes : EpisodeMap) (s : Node) (u : String)
    (htext : s.Text ≠ "") (hhref : s.Attr "href" = some u) :
    (processAnchor episodes s).variant (FindString epidRe s.Text) (qualityOf s.Text)
      = some ⟨s.Text, u, ""⟩ := by
  unfold processAnchor
  simp only [htext, hhref, ne_eq, not_false_eq_true, if_true]
  cases hget : mapGet episodes (FindString epidRe s.Text) with
  | none =>
    exact variant_mapSet_self _ _ _ _ _ (by simp [mapGet])
  | some inner =>
    exact variant_mapSet_self _ _ _ _ _ (mapGet_mapSet_self _ _ _)

/-- The magnet upsert (lines 121-147) in closed form. -/
theorem processAnchor_magnet_eq (episodes : EpisodeMap) (s : Node) (info h : String)
    (htext : s.Text = "") (hcls : s.HasClass "magnet" = true)
    (htitle : s.Attr "title" = some info) (hhref : s.Attr "href" = some h) :
    processAnchor episodes s =
      if (episodes.at (FindString epidRe info) (qualityOf info)).Title ≠ "" ∧
          (episodes.at (FindString epidRe info) (qualityOf info)).URL ≠ "" then
        match mapGet episodes (FindString epidRe info) with
        | some inner =>
          mapSet episodes (FindString epidRe info)
            (mapSet inner (qualityOf info)
              ⟨(episodes.at (FindString epidRe info) (qualityOf info)).Title,
                (episodes.at (FindString epidRe info) (qualityOf info)).URL, h⟩)
        | none => episodes
      else
        mapSet episodes (FindString epidRe info) [(qualityOf info, ⟨"", "", h⟩)] := by
  unfold processAnchor
  simp [htext, hcls, htitle, hhref]

/-- Reading `episodes[e][q]` as a value agrees with the stored variant. -/
theorem at_of_variant (episodes : EpisodeMap) (e q : String) (v : EpisodeSimple)
    (hv : episodes.variant e q = some v) : episodes.at e q = v := by
  unfold EpisodeMap.variant at hv
  unfold EpisodeMap.at
  cases hget : mapGet episodes e with
  | none => simp [hget] at hv
  | some inner =>
    simp only [hget] at hv
    simp [hv]

/-- Reading `episodes[e][q]` where nothing is stored gives the zero record. -/
theorem at_of_variant_none (episodes : EpisodeMap) (e q : String)
    (hv : episodes.variant e q = none) : episodes.at e q = EpisodeSimple.zero := by
  unfold EpisodeMap.variant at hv
  unfold EpisodeMap.at
  cases hget : mapGet episodes e with
  | none => rfl
  | some inner =>
    simp only [hget] at hv
    simp [hv]

/-- A stored variant sits in an inner map that exists. -/
theorem inner_of_variant (episodes : EpisodeMap) (e q : String) (v : EpisodeSimple)
    (hv : episodes.variant e q = some v) :
    ∃ inner, mapGet episodes e = some inner ∧ mapGet inner q = some v := by
  unfold EpisodeMap.variant at hv
  cases hget : mapGet episodes e with
  | none => simp [hget] at hv
  | some inner =>
    simp only [hget] at hv
    exact ⟨inner, rfl, hv⟩

/-- The merge branch of the magnet upsert (lines 136-140). -/
theorem processAnchor_magnet_merge (episodes : EpisodeMap) (s : Node) (info h : String)
    (v : EpisodeSimple)
    (htext : s.Text = "") (hcls : s.HasClass "magnet" = true)
    (htitle : s.Attr "title" = some info) (hhref : s.Attr "href" = some h)
    (hv : episodes.variant (FindString epidRe info) (qualityOf info) = some v)
    (ht : v.Title ≠ "") (hu : v.URL ≠ "") :
    (processAnchor episodes s).variant (FindString epidRe info) (qualityOf info)
      = some ⟨v.Title, v.URL, h⟩ := by
  rw [processAnchor_magnet_eq episodes s info h htext hcls htitle hhref]
  obtain ⟨inner, hin, _⟩ := inner_of_variant _ _ _ _ hv
  rw [at_of_variant _ _ _ _ hv, if_pos ⟨ht, hu⟩]
  simp only [hin]
  exact variant_mapSet_self _ _ _ _ _ (mapGet_mapSet_self _ _ _)

/-- The replace branch of the magnet upsert (lines 141-147). -/
theorem processAnchor_magnet_replace (episodes : EpisodeMap) (s : Node) (info h : String)
    (htext : s.Text = "") (hcls : s.HasClass "magnet" = true)
    (htitle : s.Attr "title" = some info) (hhref : s.Attr "href" = some h)
    (hv : (episodes.at (FindString epidRe info) (qualityOf info)).Title = "" ∨
      (episodes.at (FindString epidRe info) (qualityOf info)).URL = "") :
    processAnchor episodes s
      = mapSet episodes (FindString epidRe info) [(qualityOf info, ⟨"", "", h⟩)] := by
  rw [processAnchor_magnet_eq episodes s info h htext hcls htitle hhref]
  have hc : ¬ ((episodes.at (FindString epidRe info) (qualityOf info)).Title ≠ "" ∧
      (episodes.at (FindString epidRe info) (qualityOf info)).URL ≠ "") := by
    rintro ⟨h1, h2⟩
    cases hv with
    | inl h => exact h1 h
    | inr h => exact h2 h
  rw [if_neg hc]

/-- An anchor with no visible text and without the class `magnet` is
ignored. -/
theorem processAnchor_ignored (episodes : EpisodeMap) (s : Node)
    (htext : s.Text = "") (hcls : s.HasClass "magnet" = false) :
    processAnchor episodes s = episodes := by
  unfold processAnchor
  simp [htext, hcls]

/-- A run of ignored anchors leaves the index as it was. -/
theorem correlateFrom_ignored (episodes : EpisodeMap) (xs : List Node)
    (h : ∀ x ∈ xs, x.Text = "" ∧ x.HasClass "magnet" = false) :
    correlateFrom episodes xs = episodes := by
  induction xs generalizing episodes with
  | nil => rfl
  | cons x rest ih =>
    have hx := h x (List.mem_cons_self _ _)
    have hrest : ∀ y ∈ rest, y.Text = "" ∧ y.HasClass "magnet" = false :=
      fun y hy => h y (List.mem_cons_of_mem _ hy)
    show correlateFrom (processAnchor episodes x) rest = episodes
    rw [processAnchor_ignored episodes x hx.1 hx.2]
    exact ih episodes hrest

/-- An anchor whose label yields another episode identifier leaves the
inner map of episode `e` as it was. -/
theorem processAnchor_outer_frame (episodes : EpisodeMap) (s : Node) (e : String)
    (h : anchorEpid s ≠ some e) :
    mapGet (processAnchor episodes s) e = mapGet episodes e := by
  unfold anchorEpid anchorLabel at h
  unfold processAnchor
  by_cases htext : s.Text = ""
  · simp only [htext, ne_eq, not_true_eq_false, if_false] at h ⊢
    cases hcls : s.HasClass "magnet" with
    | false => simp
    | true =>
      simp only [if_true]
      cases htitle : s.Attr "title" with
      | none => rfl
      | some info =>
        have hne : e ≠ FindString epidRe info := by
          intro heq
          apply h
          simp [htitle, heq]
        cases hhref : s.Attr "href" with
        | none => rfl
        | some href =>
          simp only []
          split
          · cases hget : mapGet episodes (FindString epidRe info) with
            | none => rfl
            | some inner => exact mapGet_mapSet_ne _ _ _ _ hne
          · exact mapGet_mapSet_ne _ _ _ _ hne
  · have hne : e ≠ FindString epidRe s.Text := by
      intro heq
      apply h
      simp [htext, heq]
    simp only [ne_eq, htext, not_false_eq_true, if_true]
    cases hhref : s.Attr "href" with
    | none => rfl
    | some href =>
      simp only []
      cases hget : mapGet episodes (FindString epidRe s.Text) with
      | none => exact mapGet_mapSet_ne _ _ _ _ hne
      | some inner => exact mapGet_mapSet_ne _ _ _ _ hne

/-- A run of anchors of other episode identifiers leaves the inner map of
episode `e` as it was. -/
theorem correlateFrom_outer_frame (episodes : EpisodeMap) (xs : List Node) (e : String)
    (h : ∀ x ∈ xs, anchorEpid x ≠ some e) :
    mapGet (correlateFrom episodes xs) e = mapGet episodes e := by
  induction xs generalizing episodes with
  | nil => rfl
  | cons x rest ih =>
    have hrest : ∀ y ∈ rest, anchorEpid y ≠ some e :=
      fun y hy => h y (List.mem_cons_of_mem _ hy)
    show mapGet (correlateFrom (processAnchor episodes x) rest) e = mapGet episodes e
    rw [ih (processAnchor episodes x) hrest]
    exact processAnchor_outer_frame episodes x e (h x (List.mem_cons_self _ _))

/-- The variants of an episode are read from its inner map alone. -/
theorem variant_congr (m1 m2 : EpisodeMap) (e q : String)
    (h : mapGet m1 e = mapGet m2 e) : m1.variant e q = m2.variant e q := by
  unfold EpisodeMap.variant
  rw [h]

/-- The correlator splits over a concatenation of anchor runs. -/
theorem correlateFrom_append (episodes : EpisodeMap) (xs ys : List Node) :
    correlateFrom episodes (xs ++ ys) = correlateFrom (correlateFrom episodes xs) ys := by
  unfold correlateFrom
  exact List.foldl_append _ _ _ _

/-- The two nested `Each` loops visit the anchors of all rows in document
order. -/
theorem correlate_eq_correlateFrom (rows : List Element) :
    correlate rows = correlateFrom [] (rows.flatMap Element.anchors) := by
  unfold correlate
  generalize ([] : EpisodeMap) = episodes
  induction rows generalizing episodes with
  | nil => rfl
  | cons r rest ih =>
    simp only [List.foldl_cons, List.flatMap_cons]
    rw [ih, correlateFrom_append]
    rfl

/-! ## Identifier extraction -/

/-- The class `[0-9]` is the decimal digits. -/
theorem isDigit09_eq_isDigit (c : Char) : isDigit09 c = c.isDigit := by
  unfold isDigit09 Char.isDigit
  rfl

/-- When the search finds nothing, the anchored matcher fails at every
position. -/
theorem findLeftmost_none (m : List Char → Option (List Char)) (l : List Char)
    (h : findLeftmost m l = none) :
    ∀ pre suf, l = pre ++ suf → m suf = none := by
  induction l with
  | nil =>
    intro pre suf hl
    have hs : suf = [] := (List.append_eq_nil.mp hl.symm).2
    subst hs
    exact h
  | cons c cs ih =>
    unfold findLeftmost at h
    cases hm : m (c :: cs) with
    | some r => simp [hm] at h
    | none =>
      simp only [hm] at h
      intro pre suf hl
      cases pre with
      | nil =>
        simp only [List.nil_append] at hl
        rw [← hl]
        exact hm
      | cons p ps =>
        simp only [List.cons_append, List.cons.injEq] at hl
        exact ih h ps suf hl.2

/-- When the search finds `r`, the anchored matcher gives `r` at some
position and fails at every earlier one. -/
theorem findLeftmost_some (m : List Char → Option (List Char)) (l r : List Char)
    (h : findLeftmost m l = some r) :
    ∃ pre suf, l = pre ++ suf ∧ m suf = some r ∧
      ∀ pre1 suf1, l = pre1 ++ suf1 → pre1.length < pre.length → m suf1 = none := by
  induction l with
  | nil =>
    exact ⟨[], [], rfl, h, fun _ _ _ hlt => absurd hlt (Nat.not_lt_zero _)⟩
  | cons c cs ih =>
    unfold findLeftmost at h
    cases hm : m (c :: cs) with
    | some r1 =>
      simp only [hm, Option.some.injEq] at h
      subst h
      exact ⟨[], c :: cs, rfl, hm, fun _ _ _ hlt => absurd hlt (Nat.not_lt_zero _)⟩
    | none =>
      simp only [hm] at h
      obtain ⟨pre, suf, hl, hms, hleft⟩ := ih h
      refine ⟨c :: pre, suf, by rw [hl]; rfl, hms, ?_⟩
      intro pre1 suf1 hl1 hlt
      cases pre1 with
      | nil =>
        simp only [List.nil_append] at hl1
        rw [← hl1]
        exact hm
      | cons p ps =>
        simp only [List.cons_append, List.cons.injEq] at hl1
        exact hleft ps suf1 hl1.2 (Nat.lt_of_succ_lt_succ hlt)

/-- An anchored match of `epidRe` is a token that heads the input. -/
theorem epidMatchAt_some (l r : List Char) (h : epidMatchAt l = some r) :
    isEpidToken r = true ∧ ∃ suf, l = r ++ suf := by
  rcases l with _ | ⟨s, _ | ⟨a, _ | ⟨b, _ | ⟨e, _ | ⟨c, _ | ⟨d, rest⟩⟩⟩⟩⟩⟩ <;>
    simp only [epidMatchAt] at h <;> try contradiction
  split at h
  · rename_i hc
    simp only [Option.some.injEq] at h
    subst h
    obtain ⟨h1, h2, h3, h4, h5, h6⟩ := hc
    refine ⟨?_, rest, rfl⟩
    simp [isEpidToken, h1, h4, ← isDigit09_eq_isDigit, h2, h3, h5, h6]
  · contradiction

/-- A token that heads the input is matched, and matched whole. -/
theorem epidMatchAt_of_token (tok suf : List Char) (h : isEpidToken tok = true) :
    epidMatchAt (tok ++ suf) = some tok := by
  rcases tok with _ | ⟨s, _ | ⟨a, _ | ⟨b, _ | ⟨e, _ | ⟨c, _ | ⟨d, _ | ⟨x, rest⟩⟩⟩⟩⟩⟩⟩ <;>
    simp only [isEpidToken] at h <;> try contradiction
  simp only [Bool.and_eq_true, decide_eq_true_eq, ← isDigit09_eq_isDigit] at h
  obtain ⟨⟨⟨⟨⟨h1, h2⟩, h3⟩, h4⟩, h5⟩, h6⟩ := h
  simp [epidMatchAt, h1, h2, h3, h4, h5, h6]

/-! ## The claims -/

/-- C1, the code at its failing input: a magnet anchor titled `X S01E01`
with href `magnet:?xt=aaa` is seen first and recorded at (S01E01, hdtv);
the episode-link anchor with text `X S01E01` and href `/ep1` has the same
key, and its upsert assigns a record of title and url alone, so the
variant afterwards has an empty magnet and the recorded magnet is gone.
The same loss shows in the index built by the correlator from the empty
index over the two anchors in that order. -/
theorem link_upsert_drops_recorded_magnet :
    correlateFrom [] [magnetAnchor "X S01E01" "magnet:?xt=aaa"] = magnetFirstIndex ∧
    EpisodeMap.variant magnetFirstIndex "S01E01" "hdtv" = some ⟨"", "", "magnet:?xt=aaa"⟩ ∧
    (linkAnchor "X S01E01" "/ep1").Text ≠ "" ∧
    (linkAnchor "X S01E01" "/ep1").Attr "href" = some "/ep1" ∧
    FindString epidRe (linkAnchor "X S01E01" "/ep1").Text = "S01E01" ∧
    qualityOf (linkAnchor "X S01E01" "/ep1").Text = "hdtv" ∧
    (processAnchor magnetFirstIndex (linkAnchor "X S01E01" "/ep1")).variant "S01E01" "hdtv"
      = some ⟨"X S01E01", "/ep1", ""⟩ ∧
    (processAnchor magnetFirstIndex (linkAnchor "X S01E01" "/ep1")).variant "S01E01" "hdtv"
      ≠ some ⟨"X S01E01", "/ep1", "magnet:?xt=aaa"⟩ ∧
    correlateFrom []
        [magnetAnchor "X S01E01" "magnet:?xt=aaa", linkAnchor "X S01E01" "/ep1"]
      = [("S01E01", [("hdtv", ⟨"X S01E01", "/ep1", ""⟩)])] := by
  decide

/-- C2, the code at its failing input: the index holds the 720p variant of
S01E01; a magnet anchor titled `X S01E01 1080p`, whose key is
(S01E01, 1080p), takes the replace branch, which rebinds the whole inner
map of S01E01, so the 720p variant is gone afterwards.  The same loss
happens when the index was built by the correlator from the empty index. -/
theorem magnet_replace_drops_other_quality :
    EpisodeMap.variant oneQualityIndex "S01E01" "720p" = some ⟨"X S01E01 720p", "/ep1", ""⟩ ∧
    FindString epidRe "X S01E01 1080p" = "S01E01" ∧
    qualityOf "X S01E01 1080p" = "1080p" ∧
    (processAnchor oneQualityIndex
      (magnetAnchor "X S01E01 1080p" "magnet:?xt=bbb")).variant "S01E01" "720p" = none ∧
    correlateFrom [] [linkAnchor "X S01E01 720p" "/ep1"] = oneQualityIndex ∧
    correlateFrom []
        [linkAnchor "X S01E01 720p" "/ep1", magnetAnchor "X S01E01 1080p" "magnet:?xt=bbb"]
      = [("S01E01", [("1080p", ⟨"", "", "magnet:?xt=bbb"⟩)])] := by
  decide

/-- C3: for every index and every magnet anchor with title and href h whose
title yields key (e, q): when the index holds a variant at (e, q) with
non-empty title and non-empty url, the variant afterwards keeps both and has
magnet h; when there is no variant at (e, q), or its title or its url is
empty, the variant afterwards is the fresh record with empty title, empty
url and magnet h. -/
theorem magnet_upsert_merge_iff_populated (episodes : EpisodeMap) (s : Node)
    (info h : String)
    (htext : s.Text = "") (hcls : s.HasClass "magnet" = true)
    (htitle : s.Attr "title" = some info) (hhref : s.Attr "href" = some h) :
    (∀ v, episodes.variant (FindString epidRe info) (qualityOf info) = some v →
      v.Title ≠ "" → v.URL ≠ "" →
      (processAnchor episodes s).variant (FindString epidRe info) (qualityOf info)
        = some ⟨v.Title, v.URL, h⟩) ∧
    ((episodes.variant (FindString epidRe info) (qualityOf info) = none ∨
        ∃ v, episodes.variant (FindString epidRe info) (qualityOf info) = some v ∧
          (v.Title = "" ∨ v.URL = "")) →
      (processAnchor episodes s).variant (FindString epidRe info) (qualityOf info)
        = some ⟨"", "", h⟩) := by
  refine ⟨fun v hv ht hu =>
    processAnchor_magnet_merge episodes s info h v htext hcls htitle hhref hv ht hu, ?_⟩
  intro hcase
  have hz : (episodes.at (FindString epidRe info) (qualityOf info)).Title = "" ∨
      (episodes.at (FindString epidRe info) (qualityOf info)).URL = "" := by
    rcases hcase with hnone | ⟨v, hv, hempty⟩
    · rw [at_of_variant_none _ _ _ hnone]
      exact Or.inl rfl
    · rw [at_of_variant _ _ _ _ hv]
      exact hempty
  rw [processAnchor_magnet_replace episodes s info h htext hcls htitle hhref hz]
  exact variant_mapSet_self _ _ _ _ _ (by simp [mapGet])

/-- C3 at a link-created entry (merge) and at a magnet-created entry, whose
title is empty (replace). -/
theorem magnet_upsert_merge_iff_populated_witness :
    (processAnchor linkedIndex
        (magnetAnchor "Show Name S02E05 1080p" "magnet:?xt=ccc")).variant "S02E05" "1080p"
      = some ⟨"Show Name S02E05 1080p", "/ep1", "magnet:?xt=ccc"⟩ ∧
    (processAnchor magnetFirstIndex
        (magnetAnchor "X S01E01" "magnet:?xt=ddd")).variant "S01E01" "hdtv"
      = some ⟨"", "", "magnet:?xt=ddd"⟩ :=
  ⟨(magnet_upsert_merge_iff_populated linkedIndex
      (magnetAnchor "Show Name S02E05 1080p" "magnet:?xt=ccc")
      "Show Name S02E05 1080p" "magnet:?xt=ccc"
      (by decide) (by decide) (by decide) (by decide)).1
      ⟨"Show Name S02E05 1080p", "/ep1", ""⟩ (by decide) (by decide) (by decide),
   (magnet_upsert_merge_iff_populated magnetFirstIndex
      (magnetAnchor "X S01E01" "magnet:?xt=ddd") "X S01E01" "magnet:?xt=ddd"
      (by decide) (by decide) (by decide) (by decide)).2
      (Or.inr ⟨⟨"", "", "magnet:?xt=aaa"⟩, by decide, Or.inl (by decide)⟩)⟩

/-- C4: from every starting index, an episode-link anchor with non-empty
text L and non-empty href u, then any anchors whose labels yield other
episode identifiers, then a magnet anchor with title L and href m, leave at
(epid L, quality L) the variant with title L, url u and magnet m. -/
theorem link_then_magnet_yields_full_variant (episodes : EpisodeMap) (L u m : String)
    (a b : Node) (mid : List Node)
    (hL : L ≠ "") (hu : u ≠ "")
    (hat : a.Text = L) (hah : a.Attr "href" = some u)
    (hbt : b.Text = "") (hbc : b.HasClass "magnet" = true)
    (hbl : b.Attr "title" = some L) (hbh : b.Attr "href" = some m)
    (hmid : ∀ x ∈ mid, anchorEpid x ≠ some (FindString epidRe L)) :
    (correlateFrom episodes (a :: (mid ++ [b]))).variant (FindString epidRe L) (qualityOf L)
      = some ⟨L, u, m⟩ := by
  have hsplit : correlateFrom episodes (a :: (mid ++ [b]))
      = processAnchor (correlateFrom (processAnchor episodes a) mid) b := by
    show correlateFrom (processAnchor episodes a) (mid ++ [b]) = _
    rw [correlateFrom_append]
    rfl
  have hlink : (processAnchor episodes a).variant (FindString epidRe L) (qualityOf L)
      = some ⟨L, u, ""⟩ := by
    have h := processAnchor_link_variant episodes a u (by rw [hat]; exact hL) hah
    rw [hat] at h
    exact h
  have hmidv : (correlateFrom (processAnchor episodes a) mid).variant
      (FindString epidRe L) (qualityOf L) = some ⟨L, u, ""⟩ := by
    rw [variant_congr _ _ _ _ (correlateFrom_outer_frame (processAnchor episodes a) mid _ hmid)]
    exact hlink
  rw [hsplit]
  exact processAnchor_magnet_merge _ b L m ⟨L, u, ""⟩ hbt hbc hbl hbh hmidv hL hu

/-- C4 at the spec's example, with an anchor pair of another episode in
between. -/
theorem link_then_magnet_yields_full_variant_witness :
    (correlateFrom []
        (linkAnchor "Show Name S02E05 1080p" "/ep1" ::
          ([linkAnchor "Show Name S02E04 1080p" "/ep0",
            magnetAnchor "Show Name S02E04 1080p" "magnet:?xt=zzz"] ++
            [magnetAnchor "Show Name S02E05 1080p" "magnet:?xt=..."]))).variant
        "S02E05" "1080p"
      = some ⟨"Show Name S02E05 1080p", "/ep1", "magnet:?xt=..."⟩ :=
  link_then_magnet_yields_full_variant [] "Show Name S02E05 1080p" "/ep1" "magnet:?xt=..."
    (linkAnchor "Show Name S02E05 1080p" "/ep1")
    (magnetAnchor "Show Name S02E05 1080p" "magnet:?xt=...")
    [linkAnchor "Show Name S02E04 1080p" "/ep0",
      magnetAnchor "Show Name S02E04 1080p" "magnet:?xt=zzz"]
    (by decide) (by decide) (by decide) (by decide) (by decide) (by decide) (by decide)
    (by decide) (by decide)

/-- C5: an anchor sequence whose only magnet anchor has title T and href m,
and which has no episode-link anchor (every other anchor has empty text and
lacks the class `magnet`), gives from the empty index the index with the
single variant of empty title, empty url and magnet m, stored at
(epid T, q), where q is the quality token of T, or `hdtv` when T has none. -/
theorem lone_magnet_yields_single_variant (pre post : List Node) (s : Node) (T m : String)
    (hpre : ∀ x ∈ pre, x.Text = "" ∧ x.HasClass "magnet" = false)
    (hpost : ∀ x ∈ post, x.Text = "" ∧ x.HasClass "magnet" = false)
    (htext : s.Text = "") (hcls : s.HasClass "magnet" = true)
    (htitle : s.Attr "title" = some T) (hhref : s.Attr "href" = some m) :
    correlateFrom [] (pre ++ s :: post)
        = [(FindString epidRe T, [(qualityOf T, ⟨"", "", m⟩)])] ∧
      (FindString qualityRe T ≠ "" → qualityOf T = FindString qualityRe T) ∧
      (FindString qualityRe T = "" → qualityOf T = "hdtv") := by
  refine ⟨?_, ?_, ?_⟩
  · rw [correlateFrom_append, correlateFrom_ignored [] pre hpre]
    show correlateFrom (processAnchor [] s) post = _
    rw [correlateFrom_ignored _ post hpost,
      processAnchor_magnet_replace [] s T m htext hcls htitle hhref (Or.inl rfl)]
    rfl
  · intro h
    simp [qualityOf, h]
  · intro h
    simp [qualityOf, h]

/-- C5 at the spec's example, the magnet anchor standing between two
anchors that are ignored. -/
theorem lone_magnet_yields_single_variant_witness :
    correlateFrom []
        ([⟨"", [("href", "/a")], []⟩] ++
          magnetAnchor "X S01E01" "magnet:?xt=aaa" :: [⟨"", [], ["epinfo"]⟩])
      = [("S01E01", [("hdtv", ⟨"", "", "magnet:?xt=aaa"⟩)])] :=
  (lone_magnet_yields_single_variant [⟨"", [("href", "/a")], []⟩] [⟨"", [], ["epinfo"]⟩]
    (magnetAnchor "X S01E01" "magnet:?xt=aaa") "X S01E01" "magnet:?xt=aaa"
    (by decide) (by decide) (by decide) (by decide) (by decide) (by decide)).1

/-- C6, the code at its failing input: the episode-link anchor `Show 720p`
has key (empty identifier, 720p), which is not (empty identifier, hdtv); the
magnet anchor titled `extras` has neither token and key (empty identifier,
hdtv).  Its replace branch rebinds the whole inner map of the empty
identifier, so from the empty index only the magnet's variant is left and
the link's variant is gone. -/
theorem tokenless_magnet_drops_tokenless_link :
    FindString epidRe "Show 720p" = "" ∧ qualityOf "Show 720p" = "720p" ∧
    FindString epidRe "extras" = "" ∧ FindString qualityRe "extras" = "" ∧
    qualityOf "extras" = "hdtv" ∧
    (correlateFrom [] [linkAnchor "Show 720p" "/ep1"]).variant "" "720p"
      = some ⟨"Show 720p", "/ep1", ""⟩ ∧
    (correlateFrom []
      [linkAnchor "Show 720p" "/ep1", magnetAnchor "extras" "magnet:?xt=bbb"]).variant
        "" "720p" = none ∧
    correlateFrom [] [linkAnchor "Show 720p" "/ep1", magnetAnchor "extras" "magnet:?xt=bbb"]
      = [("", [("hdtv", ⟨"", "", "magnet:?xt=bbb"⟩)])] := by
  decide

/-- Beside C6: when the link's label does yield an episode identifier, the
link's variant and the variant of a magnet without tokens are both in the
index built from the empty one. -/
theorem link_and_tokenless_magnet_coexist (a b : Node) (u T m : String)
    (hat : a.Text ≠ "") (hah : a.Attr "href" = some u)
    (he : FindString epidRe a.Text ≠ "")
    (hbt : b.Text = "") (hbc : b.HasClass "magnet" = true)
    (hbl : b.Attr "title" = some T) (hbh : b.Attr "href" = some m)
    (hTe : FindString epidRe T = "") (hTq : FindString qualityRe T = "") :
    (correlateFrom [] [a, b]).variant (FindString epidRe a.Text) (qualityOf a.Text)
        = some ⟨a.Text, u, ""⟩ ∧
      (correlateFrom [] [a, b]).variant "" "hdtv" = some ⟨"", "", m⟩ := by
  have hq : qualityOf T = "hdtv" := by simp [qualityOf, hTq]
  have hstep : correlateFrom [] [a, b] = processAnchor (processAnchor [] a) b := rfl
  have hframe : mapGet (processAnchor [] a) "" = none :=
    processAnchor_outer_frame [] a ""
      (by
        unfold anchorEpid anchorLabel
        simp only [ne_eq, hat, not_false_eq_true, if_true]
        intro hsome
        exact he (Option.some.inj hsome))
  have hzero : ((processAnchor [] a).at (FindString epidRe T) (qualityOf T)).Title = "" := by
    rw [hTe]
    unfold EpisodeMap.at
    rw [hframe]
    rfl
  have hb := processAnchor_magnet_replace (processAnchor [] a) b T m hbt hbc hbl hbh
    (Or.inl hzero)
  rw [hTe, hq] at hb
  rw [hstep, hb]
  constructor
  · rw [variant_mapSet_other _ _ _ _ _ he]
    exact processAnchor_link_variant [] a u hat hah
  · exact variant_mapSet_self _ _ _ _ _ (by simp [mapGet])

/-- C7, as stated, fails: with the empty keyword `SearchShow` gives the
error `ErrMissingArgument`, which is not `ErrInvalidArgument`. -/
theorem searchShow_empty_counterexample :
    (SearchShow offlineNet "").err = some GoError.ErrMissingArgument ∧
    (SearchShow offlineNet "").err ≠ some GoError.ErrInvalidArgument := by
  decide

/-- C7, amended: with the empty keyword `SearchShow` returns no result and
the error `ErrMissingArgument`, whatever the fetch would do, and no
document fetch has been performed. -/
theorem searchShow_empty_missing_argument (net : Net) :
    (SearchShow net "").result = none ∧
    (SearchShow net "").err = some GoError.ErrMissingArgument ∧
    (SearchShow net "").fetched = [] :=
  ⟨rfl, rfl, rfl⟩

/-- C8: with the empty path `GetShowDetails` returns no result and the
error `ErrMissingArgument` without any document fetch; with a non-empty
path its error is never `ErrMissingArgument`. -/
theorem getShowDetails_missing_argument_iff_empty (net : Net) :
    ((GetShowDetails net "").result = none ∧
      (GetShowDetails net "").err = some GoError.ErrMissingArgument ∧
      (GetShowDetails net "").fetched = []) ∧
    (∀ URL : String, URL ≠ "" →
      (GetShowDetails net URL).err ≠ some GoError.ErrMissingArgument) := by
  refine ⟨⟨rfl, rfl, rfl⟩, ?_⟩
  intro URL hURL
  unfold GetShowDetails
  rw [if_neg hURL]
  cases net ("https://eztv.ag" ++ URL) with
  | error e => simp
  | ok doc => simp

/-- C8 at a path whose fetch fails and at one whose fetch succeeds. -/
theorem getShowDetails_missing_argument_iff_empty_witness :
    (GetShowDetails offlineNet "/shows/1/").err ≠ some GoError.ErrMissingArgument ∧
    (GetShowDetails blankNet "/shows/1/").err ≠ some GoError.ErrMissingArgument :=
  ⟨(getShowDetails_missing_argument_iff_empty offlineNet).2 "/shows/1/" (by decide),
   (getShowDetails_missing_argument_iff_empty blankNet).2 "/shows/1/" (by decide)⟩

/-- C9, as stated, fails: for the URL `/ep/1/` the function
`GetEpisodeDetails` returns a nil result together with a nil error. -/
theorem getEpisodeDetails_counterexample :
    (GetEpisodeDetails "/ep/1/").result = none ∧ (GetEpisodeDetails "/ep/1/").err = none := by
  decide

/-- C9, amended: for every URL `GetEpisodeDetails` deterministically returns
a nil result together with a nil error and fetches nothing; it reports no
error of any kind. -/
theorem getEpisodeDetails_nil_nil (URL : String) :
    (GetEpisodeDetails URL).result = none ∧ (GetEpisodeDetails URL).err = none ∧
      (GetEpisodeDetails URL).fetched = [] :=
  ⟨rfl, rfl, rfl⟩

/-- C10: `epidRe.FindString` gives the empty string exactly when the label
has no substring of the token form; and when the label has one, the result
is the six-character occurrence that starts leftmost in the label, copied
as it stands. -/
theorem epid_FindString_leftmost_token (label : String) :
    (FindString epidRe label = "" ↔
      ¬ ∃ pre tok suf, label.data = pre ++ tok ++ suf ∧ isEpidToken tok = true) ∧
    ((∃ pre tok suf, label.data = pre ++ tok ++ suf ∧ isEpidToken tok = true) →
      ∃ pre0 tok0 suf0, label.data = pre0 ++ tok0 ++ suf0 ∧ isEpidToken tok0 = true ∧
        tok0.length = 6 ∧ FindString epidRe label = String.mk tok0 ∧
        ∀ pre1 tok1 suf1, label.data = pre1 ++ tok1 ++ suf1 → isEpidToken tok1 = true →
          pre0.length ≤ pre1.length) := by
  have hlen : ∀ t, isEpidToken t = true → t.length = 6 := by
    intro t ht
    rcases t with _ | ⟨s, _ | ⟨a, _ | ⟨b, _ | ⟨e, _ | ⟨c, _ | ⟨d, _ | ⟨x, rest⟩⟩⟩⟩⟩⟩⟩ <;>
      simp only [isEpidToken] at ht <;> first | contradiction | rfl
  have hfound : ∀ r, findLeftmost epidRe label.data = some r →
      ∃ pre0 suf0, label.data = pre0 ++ r ++ suf0 ∧ isEpidToken r = true ∧
        ∀ pre1 tok1 suf1, label.data = pre1 ++ tok1 ++ suf1 → isEpidToken tok1 = true →
          pre0.length ≤ pre1.length := by
    intro r hr
    obtain ⟨pre, suf, hl, hm, hleft⟩ := findLeftmost_some epidRe label.data r hr
    obtain ⟨htok, suf0, hsuf⟩ := epidMatchAt_some suf r hm
    refine ⟨pre, suf0, by rw [hl, hsuf, List.append_assoc], htok, ?_⟩
    intro pre1 tok1 suf1 hl1 htok1
    by_contra hlt
    have hnone := hleft pre1 (tok1 ++ suf1) (by rw [hl1, List.append_assoc])
      (Nat.lt_of_not_le hlt)
    have hsome : epidRe (tok1 ++ suf1) = some tok1 := epidMatchAt_of_token tok1 suf1 htok1
    rw [hsome] at hnone
    exact Option.noConfusion hnone
  have hmissing : findLeftmost epidRe label.data = none →
      ¬ ∃ pre tok suf, label.data = pre ++ tok ++ suf ∧ isEpidToken tok = true := by
    rintro hnone ⟨pre, tok, suf, hl, htok⟩
    have h1 := findLeftmost_none epidRe label.data hnone pre (tok ++ suf)
      (by rw [hl, List.append_assoc])
    have hsome : epidRe (tok ++ suf) = some tok := epidMatchAt_of_token tok suf htok
    rw [hsome] at h1
    exact Option.noConfusion h1
  constructor
  · constructor
    · intro hempty
      cases hf : findLeftmost epidRe label.data with
      | none => exact hmissing hf
      | some r =>
        exfalso
        obtain ⟨_, _, _, htok, _⟩ := hfound r hf
        have h6 := hlen r htok
        unfold FindString at hempty
        simp only [hf] at hempty
        have hr : r = [] := by
          have := congrArg String.data hempty
          simpa using this
        rw [hr] at h6
        exact absurd h6 (by decide)
    · intro hno
      cases hf : findLeftmost epidRe label.data with
      | none =>
        unfold FindString
        simp [hf]
      | some r =>
        exfalso
        obtain ⟨pre0, suf0, hl, htok, _⟩ := hfound r hf
        exact hno ⟨pre0, r, suf0, hl, htok⟩
  · intro hex
    cases hf : findLeftmost epidRe label.data with
    | none => exact absurd hex (hmissing hf)
    | some r =>
      obtain ⟨pre0, suf0, hl, htok, hleft⟩ := hfound r hf
      refine ⟨pre0, r, suf0, hl, htok, hlen r htok, ?_, hleft⟩
      unfold FindString
      simp [hf]

/-- C10 at a label with two tokens, a lowercase look-alike before them:
the result is the first token, and it is not empty. -/
theorem epid_FindString_leftmost_token_witness :
    FindString epidRe "s01e01 Show S02E05 S03E07" = "S02E05" ∧
    FindString epidRe "s01e01 Show S02E05 S03E07" ≠ "" ∧
    ∃ pre0 tok0 suf0, "s01e01 Show S02E05 S03E07".data = pre0 ++ tok0 ++ suf0 ∧
      isEpidToken tok0 = true ∧ tok0.length = 6 ∧
      FindString epidRe "s01e01 Show S02E05 S03E07" = String.mk tok0 ∧
      ∀ pre1 tok1 suf1, "s01e01 Show S02E05 S03E07".data = pre1 ++ tok1 ++ suf1 →
        isEpidToken tok1 = true → pre0.length ≤ pre1.length :=
  ⟨by decide, by decide,
    (epid_FindString_leftmost_token "s01e01 Show S02E05 S03E07").2
      ⟨"s01e01 Show S02E05 ".data, "S03E07".data, [], by decide, by decide⟩⟩

/-! ## Quality extraction -/

/-- An anchored match of `qualityRe` is a resolution token that heads the
input. -/
theorem qualityMatchAt_some (l r : List Char) (h : qualityMatchAt l = some r) :
    isQualityToken r = true ∧ ∃ suf, l = r ++ suf := by
  rcases l with _ | ⟨a, _ | ⟨b, _ | ⟨c, rest⟩⟩⟩ <;>
    simp only [qualityMatchAt] at h <;> try contradiction
  split at h
  · rename_i hd
    obtain ⟨ha, hb, hc⟩ := hd
    rcases rest with _ | ⟨d, _ | ⟨e, rest2⟩⟩
    · simp at h
    · simp only at h
      split at h
      · rename_i hp
        simp only [Option.some.injEq] at h
        subst h
        refine ⟨?_, [], by simp⟩
        simp [isQualityToken, ← isDigit09_eq_isDigit, ha, hb, hc, hp]
      · contradiction
    · simp only at h
      split at h
      · rename_i hde
        simp only [Option.some.injEq] at h
        subst h
        refine ⟨?_, rest2, by simp⟩
        simp [isQualityToken, ← isDigit09_eq_isDigit, ha, hb, hc, hde.1, hde.2]
      · split at h
        · rename_i hp
          simp only [Option.some.injEq] at h
          subst h
          refine ⟨?_, e :: rest2, by simp⟩
          simp [isQualityToken, ← isDigit09_eq_isDigit, ha, hb, hc, hp]
        · contradiction
  · contradiction

/-- The letter p is not of the class `[0-9]`. -/
theorem isDigit09_p : isDigit09 'p' = false := by decide

/-- A resolution token that heads the input is matched, and matched whole. -/
theorem qualityMatchAt_of_token (tok suf : List Char) (h : isQualityToken tok = true) :
    qualityMatchAt (tok ++ suf) = some tok := by
  rcases tok with _ | ⟨a, _ | ⟨b, _ | ⟨c, _ | ⟨d, _ | ⟨e, _ | ⟨x, rest⟩⟩⟩⟩⟩⟩ <;>
    simp only [isQualityToken] at h <;> try contradiction
  · simp only [Bool.and_eq_true, decide_eq_true_eq, ← isDigit09_eq_isDigit] at h
    obtain ⟨⟨⟨ha, hb⟩, hc⟩, hp⟩ := h
    subst hp
    cases suf with
    | nil => simp [qualityMatchAt, ha, hb, hc]
    | cons e rest => simp [qualityMatchAt, ha, hb, hc, isDigit09_p]
  · simp only [Bool.and_eq_true, decide_eq_true_eq, ← isDigit09_eq_isDigit] at h
    obtain ⟨⟨⟨⟨ha, hb⟩, hc⟩, hd⟩, hp⟩ := h
    subst hp
    simp [qualityMatchAt, ha, hb, hc, hd]

/-- A run of three digits and p is a resolution token. -/
theorem isQualityToken_of_run (run : List Char) (h : isThreeDigitsP run = true) :
    isQualityToken run = true := by
  rcases run with _ | ⟨a, _ | ⟨b, _ | ⟨c, _ | ⟨p, _ | ⟨x, rest⟩⟩⟩⟩⟩ <;>
    simp only [isThreeDigitsP] at h <;> first | contradiction | skip
  simpa [isQualityToken] using h

/-- A resolution token ends in a run of three digits and p. -/
theorem run_of_isQualityToken (tok : List Char) (h : isQualityToken tok = true) :
    ∃ pre run, tok = pre ++ run ∧ isThreeDigitsP run = true := by
  rcases tok with _ | ⟨a, _ | ⟨b, _ | ⟨c, _ | ⟨d, _ | ⟨e, _ | ⟨x, rest⟩⟩⟩⟩⟩⟩ <;>
    simp only [isQualityToken] at h <;> first | contradiction | skip
  · exact ⟨[], [a, b, c, d], rfl, by simpa [isThreeDigitsP] using h⟩
  · refine ⟨[a], [b, c, d, e], rfl, ?_⟩
    simp only [Bool.and_eq_true, decide_eq_true_eq] at h
    simp [isThreeDigitsP, h.1.1.2, h.1.2, h.2, h.1.1.1.2]

/-- A resolution token is neither the empty text nor the text `hdtv`. -/
theorem isQualityToken_ne (tok : List Char) (h : isQualityToken tok = true) :
    String.mk tok ≠ "" ∧ String.mk tok ≠ "hdtv" := by
  constructor
  · intro heq
    have hd : tok = [] := by simpa using congrArg String.data heq
    rw [hd] at h
    exact absurd h (by decide)
  · intro heq
    have hd : tok = ['h', 'd', 't', 'v'] := by simpa using congrArg String.data heq
    rw [hd] at h
    exact absurd h (by decide)

/-- C11: the quality label is `hdtv` exactly when the label has no run of
three decimal digits immediately followed by a lowercase p; when it has
one, the quality label is the occurrence of a resolution token (three or
four digits and p) that starts leftmost in the label, and no token at that
start position is longer, so four digits are taken where they are there. -/
theorem quality_leftmost_token (label : String) :
    (qualityOf label = "hdtv" ↔
      ¬ ∃ pre run suf, label.data = pre ++ run ++ suf ∧ isThreeDigitsP run = true) ∧
    ((∃ pre run suf, label.data = pre ++ run ++ suf ∧ isThreeDigitsP run = true) →
      ∃ pre0 tok0 suf0, label.data = pre0 ++ tok0 ++ suf0 ∧ isQualityToken tok0 = true ∧
        qualityOf label = String.mk tok0 ∧
        ∀ pre1 tok1 suf1, label.data = pre1 ++ tok1 ++ suf1 → isQualityToken tok1 = true →
          pre0.length ≤ pre1.length ∧
            (pre1.length = pre0.length → tok1.length ≤ tok0.length)) := by
  have hfound : ∀ r, findLeftmost qualityRe label.data = some r →
      ∃ pre0 suf0, label.data = pre0 ++ r ++ suf0 ∧ isQualityToken r = true ∧
        qualityOf label = String.mk r ∧
        ∀ pre1 tok1 suf1, label.data = pre1 ++ tok1 ++ suf1 → isQualityToken tok1 = true →
          pre0.length ≤ pre1.length ∧
            (pre1.length = pre0.length → tok1.length ≤ r.length) := by
    intro r hr
    obtain ⟨pre, suf, hl, hm, hleft⟩ := findLeftmost_some qualityRe label.data r hr
    obtain ⟨htok, suf0, hsuf⟩ := qualityMatchAt_some suf r hm
    refine ⟨pre, suf0, by rw [hl, hsuf, List.append_assoc], htok, ?_, ?_⟩
    · have hq : FindString qualityRe label = String.mk r := by
        unfold FindString
        simp [hr]
      unfold qualityOf
      simp only [hq]
      rw [if_neg (isQualityToken_ne r htok).1]
    · intro pre1 tok1 suf1 hl1 htok1
      have hsome : qualityRe (tok1 ++ suf1) = some tok1 :=
        qualityMatchAt_of_token tok1 suf1 htok1
      constructor
      · by_contra hlt
        have hnone := hleft pre1 (tok1 ++ suf1) (by rw [hl1, List.append_assoc])
          (Nat.lt_of_not_le hlt)
        rw [hsome] at hnone
        exact Option.noConfusion hnone
      · intro hlen
        have heq : pre1 ++ (tok1 ++ suf1) = pre ++ suf := by
          rw [← List.append_assoc, ← hl1, hl]
        have hsplit := List.append_inj heq hlen
        rw [hsplit.2, hm] at hsome
        have : r = tok1 := Option.some.inj hsome
        rw [this]
  have hmissing : findLeftmost qualityRe label.data = none →
      qualityOf label = "hdtv" ∧
        ¬ ∃ pre run suf, label.data = pre ++ run ++ suf ∧ isThreeDigitsP run = true := by
    intro hnone
    constructor
    · unfold qualityOf FindString
      simp [hnone]
    · rintro ⟨pre, run, suf, hl, hrun⟩
      have h1 := findLeftmost_none qualityRe label.data hnone pre (run ++ suf)
        (by rw [hl, List.append_assoc])
      have hsome : qualityRe (run ++ suf) = some run :=
        qualityMatchAt_of_token run suf (isQualityToken_of_run run hrun)
      rw [hsome] at h1
      exact Option.noConfusion h1
  cases hf : findLeftmost qualityRe label.data with
  | none =>
    obtain ⟨hq, hno⟩ := hmissing hf
    exact ⟨⟨fun _ => hno, fun _ => hq⟩, fun hex => absurd hex hno⟩
  | some r =>
    obtain ⟨pre0, suf0, hl, htok, hq, hleft⟩ := hfound r hf
    obtain ⟨p, run, hpr, hrun⟩ := run_of_isQualityToken r htok
    have hex : ∃ pre run suf, label.data = pre ++ run ++ suf ∧ isThreeDigitsP run = true :=
      ⟨pre0 ++ p, run, suf0, by rw [hl, hpr]; simp, hrun⟩
    refine ⟨⟨?_, fun hno => absurd hex hno⟩, fun _ => ⟨pre0, r, suf0, hl, htok, hq, hleft⟩⟩
    intro hh
    rw [hq] at hh
    exact absurd hh (isQualityToken_ne r htok).2

/-- C11 at the spec's example and at a run of five digits, where the match
starts at the second digit. -/
theorem quality_leftmost_token_witness :
    qualityOf "Show 1080p" = "1080p" ∧ qualityOf "Show 12345p 720p" = "2345p" ∧
    qualityOf "Show 10p 1080P" = "hdtv" ∧
    ∃ pre0 tok0 suf0, "Show 1080p".data = pre0 ++ tok0 ++ suf0 ∧
      isQualityToken tok0 = true ∧ qualityOf "Show 1080p" = String.mk tok0 ∧
      ∀ pre1 tok1 suf1, "Show 1080p".data = pre1 ++ tok1 ++ suf1 →
        isQualityToken tok1 = true →
        pre0.length ≤ pre1.length ∧ (pre1.length = pre0.length → tok1.length ≤ tok0.length) :=
  ⟨by decide, by decide, by decide,
    (quality_leftmost_token "Show 1080p").2
      ⟨"Show 1".data, "080p".data, [], by decide, by decide⟩⟩

/-! ## Frames of single anchors -/

/-- An anchor with visible text and no href is skipped. -/
theorem processAnchor_link_no_href (episodes : EpisodeMap) (s : Node)
    (ht : s.Text ≠ "") (hh : s.Attr "href" = none) : processAnchor episodes s = episodes := by
  unfold processAnchor
  simp [ht, hh]

/-- A magnet anchor without title is skipped. -/
theorem processAnchor_magnet_no_title (episodes : EpisodeMap) (s : Node)
    (ht : s.Text = "") (hc : s.HasClass "magnet" = true) (hti : s.Attr "title" = none) :
    processAnchor episodes s = episodes := by
  unfold processAnchor
  simp [ht, hc, hti]

/-- A magnet anchor without href is skipped. -/
theorem processAnchor_magnet_no_href (episodes : EpisodeMap) (s : Node)
    (ht : s.Text = "") (hc : s.HasClass "magnet" = true) (hh : s.Attr "href" = none) :
    processAnchor episodes s = episodes := by
  unfold processAnchor
  simp only [ht, hc, hh, ne_eq, not_true_eq_false, if_false, if_true]
  cases s.Attr "title" <;> rfl

/-- C15: an anchor with empty text and without the class `magnet`; an
anchor with non-empty text and no href, with or without the class
`magnet`; a magnet anchor with no title; and a magnet anchor with no href:
each leaves every index exactly as it was.  The step is a total function,
so no such anchor brings about an error. -/
theorem skipped_anchor_leaves_index (episodes : EpisodeMap) (s : Node)
    (h : (s.Text = "" ∧ s.HasClass "magnet" = false) ∨
      (s.Text ≠ "" ∧ s.Attr "href" = none) ∨
      (s.Text = "" ∧ s.HasClass "magnet" = true ∧ s.Attr "title" = none) ∨
      (s.Text = "" ∧ s.HasClass "magnet" = true ∧ s.Attr "href" = none)) :
    processAnchor episodes s = episodes := by
  rcases h with ⟨ht, hc⟩ | ⟨ht, hh⟩ | ⟨ht, hc, hti⟩ | ⟨ht, hc, hh⟩
  · exact processAnchor_ignored episodes s ht hc
  · exact processAnchor_link_no_href episodes s ht hh
  · exact processAnchor_magnet_no_title episodes s ht hc hti
  · exact processAnchor_magnet_no_href episodes s ht hc hh

/-- C15 at one anchor of each of the four kinds, the second one carrying
the class `magnet`. -/
theorem skipped_anchor_leaves_index_witness :
    processAnchor linkedIndex ⟨"", [("href", "/a"), ("title", "X S02E05 1080p")], ["epinfo"]⟩
        = linkedIndex ∧
    processAnchor linkedIndex ⟨"Show Name S02E05 1080p", [("title", "t")], ["magnet"]⟩
        = linkedIndex ∧
    processAnchor linkedIndex ⟨"", [("href", "magnet:?xt=eee")], ["magnet"]⟩ = linkedIndex ∧
    processAnchor linkedIndex ⟨"", [("title", "Show Name S02E05 1080p")], ["magnet"]⟩
        = linkedIndex :=
  ⟨skipped_anchor_leaves_index linkedIndex _ (Or.inl ⟨by decide, by decide⟩),
   skipped_anchor_leaves_index linkedIndex _ (Or.inr (Or.inl ⟨by decide, by decide⟩)),
   skipped_anchor_leaves_index linkedIndex _
     (Or.inr (Or.inr (Or.inl ⟨by decide, by decide, by decide⟩))),
   skipped_anchor_leaves_index linkedIndex _
     (Or.inr (Or.inr (Or.inr ⟨by decide, by decide, by decide⟩)))⟩

/-- Writing one quality into the inner map of an episode leaves the other
qualities of that episode as they were. -/
theorem variant_mapSet_inner_other (episodes : EpisodeMap) (e q q2 : String)
    (inner : QualityMap) (v : EpisodeSimple)
    (hin : mapGet episodes e = some inner) (hne : q2 ≠ q) :
    EpisodeMap.variant (mapSet episodes e (mapSet inner q v)) e q2
      = EpisodeMap.variant episodes e q2 := by
  simp [EpisodeMap.variant, mapGet_mapSet_self, hin, mapGet_mapSet_ne _ _ _ _ hne]

/-- The link upsert in closed form. -/
theorem processAnchor_link_eq (episodes : EpisodeMap) (s : Node) (u : String)
    (htext : s.Text ≠ "") (hhref : s.Attr "href" = some u) :
    processAnchor episodes s =
      match mapGet episodes (FindString epidRe s.Text) with
      | some inner =>
        mapSet episodes (FindString epidRe s.Text)
          (mapSet inner (qualityOf s.Text) ⟨s.Text, u, ""⟩)
      | none =>
        mapSet episodes (FindString epidRe s.Text) [(qualityOf s.Text, ⟨s.Text, u, ""⟩)] := by
  unfold processAnchor
  simp [htext, hhref]

/-- The link upsert leaves every other key as it was. -/
theorem processAnchor_link_frame (episodes : EpisodeMap) (s : Node) (u e2 q2 : String)
    (htext : s.Text ≠ "") (hhref : s.Attr "href" = some u)
    (hne : ¬ (e2 = FindString epidRe s.Text ∧ q2 = qualityOf s.Text)) :
    (processAnchor episodes s).variant e2 q2 = episodes.variant e2 q2 := by
  rw [processAnchor_link_eq episodes s u htext hhref]
  by_cases he : e2 = FindString epidRe s.Text
  · have hq : q2 ≠ qualityOf s.Text := fun hq => hne ⟨he, hq⟩
    subst he
    cases hget : mapGet episodes (FindString epidRe s.Text) with
    | some inner => exact variant_mapSet_inner_other _ _ _ _ _ _ hget hq
    | none =>
      have hq2 : ¬ qualityOf s.Text = q2 := fun h => hq h.symm
      simp [EpisodeMap.variant, mapGet_mapSet_self, hget, mapGet, hq2]
  · cases hget : mapGet episodes (FindString epidRe s.Text) with
    | some inner => exact variant_mapSet_other _ _ _ _ _ he
    | none => exact variant_mapSet_other _ _ _ _ _ he

/-- C19: an episode-link anchor (non-empty text, href present) whose label
yields key (e, q) changes only the entry at (e, q): the variant at every
other key, other qualities of episode e included, is what it was, and
where nothing was stored at (e, q) the variant there becomes the record of
the anchor's text, its href and an empty magnet. -/
theorem link_upsert_changes_only_its_key (episodes : EpisodeMap) (s : Node) (u e q : String)
    (htext : s.Text ≠ "") (hhref : s.Attr "href" = some u)
    (he : FindString epidRe s.Text = e) (hq : qualityOf s.Text = q) :
    (∀ e2 q2, ¬ (e2 = e ∧ q2 = q) →
      (processAnchor episodes s).variant e2 q2 = episodes.variant e2 q2) ∧
    (episodes.variant e q = none →
      (processAnchor episodes s).variant e q = some ⟨s.Text, u, ""⟩) := by
  subst he hq
  exact ⟨fun e2 q2 hne => processAnchor_link_frame episodes s u e2 q2 htext hhref hne,
    fun _ => processAnchor_link_variant episodes s u htext hhref⟩

/-- C19 at the 720p index and a link for the 1080p rendition of the same
episode: the 720p variant stays, the 1080p variant is created. -/
theorem link_upsert_changes_only_its_key_witness :
    (processAnchor oneQualityIndex (linkAnchor "X S01E01 1080p" "/ep2")).variant
        "S01E01" "720p" = some ⟨"X S01E01 720p", "/ep1", ""⟩ ∧
    (processAnchor oneQualityIndex (linkAnchor "X S01E01 1080p" "/ep2")).variant
        "S01E01" "1080p" = some ⟨"X S01E01 1080p", "/ep2", ""⟩ :=
  ⟨(link_upsert_changes_only_its_key oneQualityIndex (linkAnchor "X S01E01 1080p" "/ep2")
      "/ep2" "S01E01" "1080p" (by decide) (by decide) (by decide) (by decide)).1
      "S01E01" "720p" (by decide),
   (link_upsert_changes_only_its_key oneQualityIndex (linkAnchor "X S01E01 1080p" "/ep2")
      "/ep2" "S01E01" "1080p" (by decide) (by decide) (by decide) (by decide)).2
      (by decide)⟩

/-! ## The queries -/

/-- C14: for a non-empty path whose document is fetched, `GetShowDetails`
returns a nil error and the record whose URL is the path as given, whose
Episodes is the index of the correlator over the rows matched by
`tr.forum_header_border`, and whose Title and Cover are the text of the
name span and the src of the logo image.  With no episode row the index is
the empty map, with no name span the title is empty, with no logo image the
cover is empty, and the call succeeds all the same. -/
theorem getShowDetails_success (net : Net) (URL : String) (doc : Document)
    (hURL : URL ≠ "") (hnet : net ("https://eztv.ag" ++ URL) = Except.ok doc) :
    (GetShowDetails net URL).err = none ∧
    (GetShowDetails net URL).result =
      some ⟨selText (doc.Find "b > span[itemprop='name']"), URL,
        (selAttr (doc.Find ".show_info_main_logo > img:nth-child(1)") "src").getD "",
        correlate (doc.Find "tr.forum_header_border")⟩ ∧
    (doc.Find "tr.forum_header_border" = [] →
      correlate (doc.Find "tr.forum_header_border") = []) ∧
    (doc.Find "b > span[itemprop='name']" = [] →
      selText (doc.Find "b > span[itemprop='name']") = "") ∧
    (doc.Find ".show_info_main_logo > img:nth-child(1)" = [] →
      (selAttr (doc.Find ".show_info_main_logo > img:nth-child(1)") "src").getD "" = "") := by
  refine ⟨?_, ?_, ?_, ?_, ?_⟩
  · unfold GetShowDetails
    rw [if_neg hURL, hnet]
  · unfold GetShowDetails
    rw [if_neg hURL, hnet]
  · intro h
    rw [h]
    rfl
  · intro h
    rw [h]
    rfl
  · intro h
    rw [h]
    rfl

/-- C14 at the sample page, and at a blank page, where index, title and
cover are all empty and the call succeeds. -/
theorem getShowDetails_success_witness :
    (GetShowDetails (fun _ => Except.ok samplePage) "/shows/1/x/").result =
      some ⟨"X", "/shows/1/x/", "/img/x.png",
        [("S01E01", [("720p", ⟨"X S01E01 720p", "/ep1", "magnet:?xt=aaa"⟩)]),
          ("S01E02", [("hdtv", ⟨"X S01E02", "/ep2", ""⟩)])]⟩ ∧
    (GetShowDetails blankNet "/shows/1/x/").err = none ∧
    (GetShowDetails blankNet "/shows/1/x/").result = some ⟨"", "/shows/1/x/", "", []⟩ :=
  ⟨(getShowDetails_success (fun _ => Except.ok samplePage) "/shows/1/x/" samplePage
      (by decide) rfl).2.1,
   (getShowDetails_success blankNet "/shows/1/x/" ⟨fun _ => []⟩ (by decide) rfl).1,
   (getShowDetails_success blankNet "/shows/1/x/" ⟨fun _ => []⟩ (by decide) rfl).2.1⟩

/-- C16: `SearchShow` never gives `ErrShowNotFound`.  For a non-empty
keyword whose directory document is fetched: with no matched anchor the
call fails with `ErrEmptyResponse`; otherwise it succeeds, and the list it
returns has one `ShowSimple` per matched anchor, in document order, made of
the anchor's text and its href (empty when there is none). -/
theorem searchShow_never_show_not_found (net : Net) (keyword : String) :
    (SearchShow net keyword).err ≠ some GoError.ErrShowNotFound ∧
    (∀ doc, keyword ≠ "" → net "https://eztv.ag/showlist/" = Except.ok doc →
      ((doc.Find (threadLinkSelector keyword)).length = 0 →
        (SearchShow net keyword).result = none ∧
          (SearchShow net keyword).err = some GoError.ErrEmptyResponse) ∧
      ((doc.Find (threadLinkSelector keyword)).length ≠ 0 →
        (SearchShow net keyword).err = none ∧
          (SearchShow net keyword).result
            = some ((doc.Find (threadLinkSelector keyword)).map showOfAnchor) ∧
          ((doc.Find (threadLinkSelector keyword)).map showOfAnchor).length
            = (doc.Find (threadLinkSelector keyword)).length)) := by
  constructor
  · unfold SearchShow
    by_cases hk : keyword = ""
    · simp [hk]
    · rw [if_neg hk]
      cases net "https://eztv.ag/showlist/" with
      | error e => simp
      | ok doc =>
        simp only [List.length_map]
        by_cases hlen : (doc.Find ("a.thread_link:contains('" ++ keyword ++ "')")).length < 1
        · simp [hlen]
        · have h0 : ¬ (doc.Find ("a.thread_link:contains('" ++ keyword ++ "')")).length = 0 := by
            omega
          simp [hlen, h0]
  · intro doc hk hnet
    unfold SearchShow threadLinkSelector
    rw [if_neg hk, hnet]
    simp only [List.length_map]
    constructor
    · intro h0
      simp [h0]
    · intro h0
      have hlen : ¬ (doc.Find ("a.thread_link:contains('" ++ keyword ++ "')")).length < 1 := by
        omega
      simp only [hlen, h0, if_false, true_and]
      exact ⟨rfl, trivial⟩

/-- C16 at the sample directory: two matches give two results in document
order; a keyword without match gives `ErrEmptyResponse`. -/
theorem searchShow_never_show_not_found_witness :
    (SearchShow (fun _ => Except.ok sampleDirectory) "Lost").result
      = some [⟨"Lost", "/shows/1/lost/"⟩, ⟨"Lost Girl", ""⟩] ∧
    (SearchShow (fun _ => Except.ok sampleDirectory) "Nope").err
      = some GoError.ErrEmptyResponse :=
  ⟨(((searchShow_never_show_not_found (fun _ => Except.ok sampleDirectory) "Lost").2
      sampleDirectory (by decide) rfl).2 (by decide)).2.1,
   (((searchShow_never_show_not_found (fun _ => Except.ok sampleDirectory) "Nope").2
      sampleDirectory (by decide) rfl).1 (by decide)).2⟩

/-! ## What the correlator stores -/

/-- A binding of a written map is an old binding or the one written. -/
theorem mem_mapSet {V : Type} (m : List (String × V)) (k : String) (v : V)
    (x : String × V) (h : x ∈ mapSet m k v) : x ∈ m ∨ x = (k, v) := by
  induction m with
  | nil =>
    simp only [mapSet, List.mem_singleton] at h
    exact Or.inr h
  | cons p rest ih =>
    obtain ⟨k', v'⟩ := p
    by_cases hk : k' = k
    · simp only [mapSet, hk, if_true, List.mem_cons] at h
      rcases h with h | h
      · exact Or.inr h
      · exact Or.inl (List.mem_cons_of_mem _ h)
    · simp only [mapSet, hk, if_false, List.mem_cons] at h
      rcases h with h | h
      · exact Or.inl (h ▸ List.mem_cons_self _ _)
      · rcases ih h with h2 | h2
        · exact Or.inl (List.mem_cons_of_mem _ h2)
        · exact Or.inr h2

/-- What a lookup finds is a binding of the map. -/
theorem mem_of_mapGet {V : Type} (m : List (String × V)) (k : String) (v : V)
    (h : mapGet m k = some v) : (k, v) ∈ m := by
  induction m with
  | nil => simp [mapGet] at h
  | cons p rest ih =>
    obtain ⟨k', v'⟩ := p
    by_cases hk : k' = k
    · simp only [mapGet, hk, if_true, Option.some.injEq] at h
      subst hk h
      exact List.mem_cons_self _ _
    · simp only [mapGet, hk, if_false] at h
      exact List.mem_cons_of_mem _ (ih h)

/-- A written map is not empty. -/
theorem mapSet_ne_nil {V : Type} (m : List (String × V)) (k : String) (v : V) :
    mapSet m k v ≠ [] := by
  cases m with
  | nil => simp [mapSet]
  | cons p rest =>
    obtain ⟨k', v'⟩ := p
    by_cases hk : k' = k <;> simp [mapSet, hk]

/-- A non-empty title read through `episodes[e][q]` is the title of a
stored variant. -/
theorem stored_of_at (m : EpisodeMap) (e q : String) (h : (m.at e q).Title ≠ "") :
    Stored m e q (m.at e q) ∧ ∃ inner, mapGet m e = some inner := by
  unfold EpisodeMap.at at h ⊢
  cases hget : mapGet m e with
  | none =>
    simp only [hget] at h
    exact absurd rfl h
  | some inner =>
    simp only [hget] at h ⊢
    cases hq : mapGet inner q with
    | none =>
      simp only [hq] at h
      exact absurd rfl h
    | some v =>
      exact ⟨⟨inner, mem_of_mapGet _ _ _ hget, mem_of_mapGet _ _ _ hq⟩, inner, rfl⟩

/-- The step of the correlator in closed form: an anchor leaves the index
alone, or it writes one record at the key its label yields, either into
the inner map that is there or as a new inner map of its own. -/
theorem processAnchor_shape (m : EpisodeMap) (s : Node) :
    processAnchor m s = m ∨
    ∃ label v, anchorLabel s = some label ∧ Written m s label v ∧
      (processAnchor m s
          = mapSet m (FindString epidRe label) [(qualityOf label, v)] ∨
        ∃ inner, mapGet m (FindString epidRe label) = some inner ∧
          processAnchor m s
            = mapSet m (FindString epidRe label) (mapSet inner (qualityOf label) v)) := by
  by_cases htext : s.Text = ""
  · cases hcls : s.HasClass "magnet" with
    | false => exact Or.inl (processAnchor_ignored m s htext hcls)
    | true =>
      cases htitle : s.Attr "title" with
      | none =>
        exact Or.inl (processAnchor_magnet_no_title m s htext hcls htitle)
      | some info =>
        cases hhref : s.Attr "href" with
        | none =>
          exact Or.inl (processAnchor_magnet_no_href m s htext hcls hhref)
        | some h =>
          have hlabel : anchorLabel s = some info := by
            unfold anchorLabel
            simp [htext, htitle]
          by_cases hc : (m.at (FindString epidRe info) (qualityOf info)).Title ≠ "" ∧
              (m.at (FindString epidRe info) (qualityOf info)).URL ≠ ""
          · obtain ⟨hst, inner, hin⟩ := stored_of_at m _ _ hc.1
            refine Or.inr ⟨info, ⟨(m.at (FindString epidRe info) (qualityOf info)).Title,
              (m.at (FindString epidRe info) (qualityOf info)).URL, h⟩, hlabel, ?_, ?_⟩
            · exact Or.inr ⟨htext, hcls, htitle, h, hhref,
                Or.inr ⟨_, hst, hc.1, hc.2, rfl⟩⟩
            · refine Or.inr ⟨inner, hin, ?_⟩
              rw [processAnchor_magnet_eq m s info h htext hcls htitle hhref, if_pos hc]
              simp only [hin]
          · refine Or.inr ⟨info, ⟨"", "", h⟩, hlabel, ?_, ?_⟩
            · exact Or.inr ⟨htext, hcls, htitle, h, hhref, Or.inl rfl⟩
            · refine Or.inl ?_
              rw [processAnchor_magnet_eq m s info h htext hcls htitle hhref, if_neg hc]
  · cases hhref : s.Attr "href" with
    | none => exact Or.inl (processAnchor_link_no_href m s htext hhref)
    | some u =>
      have hlabel : anchorLabel s = some s.Text := by
        unfold anchorLabel
        simp [htext]
      refine Or.inr ⟨s.Text, ⟨s.Text, u, ""⟩, hlabel, Or.inl ⟨htext, rfl, u, hhref, rfl⟩, ?_⟩
      rw [processAnchor_link_eq m s u htext hhref]
      cases hget : mapGet m (FindString epidRe s.Text) with
      | none => exact Or.inl rfl
      | some inner => exact Or.inr ⟨inner, rfl, rfl⟩

/-- An invariant of the index that every step keeps holds after the whole
anchor sequence. -/
theorem correlateFrom_invariant (P : EpisodeMap → Prop) (xs : List Node)
    (hstep : ∀ m s, s ∈ xs → P m → P (processAnchor m s)) :
    ∀ m, P m → P (correlateFrom m xs) := by
  induction xs with
  | nil => exact fun m hm => hm
  | cons x rest ih =>
    intro m hm
    show P (correlateFrom (processAnchor m x) rest)
    exact ih (fun m2 s hs h2 => hstep m2 s (List.mem_cons_of_mem _ hs) h2) _
      (hstep m x (List.mem_cons_self _ _) hm)

/-- The episode identifier extracted from a label is empty or a token. -/
theorem epid_shape (label : String) :
    FindString epidRe label = "" ∨ isEpidToken (FindString epidRe label).data = true := by
  unfold FindString
  cases hf : findLeftmost epidRe label.data with
  | none => exact Or.inl rfl
  | some r =>
    obtain ⟨_, suf, _, hm, _⟩ := findLeftmost_some epidRe label.data r hf
    exact Or.inr (epidMatchAt_some suf r hm).1

/-- The quality label extracted from a label is `hdtv` or a resolution
token. -/
theorem quality_shape (label : String) :
    qualityOf label = "hdtv" ∨ isQualityToken (qualityOf label).data = true := by
  unfold qualityOf FindString
  cases hf : findLeftmost qualityRe label.data with
  | none => exact Or.inl (by simp)
  | some r =>
    obtain ⟨_, suf, _, hm, _⟩ := findLeftmost_some qualityRe label.data r hf
    have htok := (qualityMatchAt_some suf r hm).1
    refine Or.inr ?_
    simp only [if_neg (isQualityToken_ne r htok).1]
    exact htok

/-- C18: after the correlator has processed any anchor sequence from the
empty index, every outer key is the empty string or a token of the form S,
two digits, E, two digits; no outer key is bound to an empty inner map; and
every inner key is `hdtv` or three or four digits followed by p, hence
never the empty string. -/
theorem correlator_key_shapes (anchors : List Node) (e : String) (inner : QualityMap)
    (h : (e, inner) ∈ correlateFrom [] anchors) :
    (e = "" ∨ isEpidToken e.data = true) ∧ inner ≠ [] ∧
    ∀ q v, (q, v) ∈ inner → (q = "hdtv" ∨ isQualityToken q.data = true) ∧ q ≠ "" := by
  have hq : ∀ q : String, (q = "hdtv" ∨ isQualityToken q.data = true) → q ≠ "" := by
    intro q hshape hempty
    subst hempty
    rcases hshape with h1 | h1
    · exact absurd h1 (by decide)
    · exact absurd h1 (by decide)
  have hinv := correlateFrom_invariant
    (fun m => ∀ e inner, (e, inner) ∈ m →
      (e = "" ∨ isEpidToken e.data = true) ∧ inner ≠ [] ∧
      ∀ q v, (q, v) ∈ inner → (q = "hdtv" ∨ isQualityToken q.data = true))
    anchors
    (by
      intro m s _ hm e1 inner1 hmem
      rcases processAnchor_shape m s with heq | ⟨label, v, _, _, heq | ⟨inner0, hin, heq⟩⟩
      · rw [heq] at hmem
        exact hm e1 inner1 hmem
      · rw [heq] at hmem
        rcases mem_mapSet _ _ _ _ hmem with hold | hnew
        · exact hm e1 inner1 hold
        · simp only [Prod.mk.injEq] at hnew
          obtain ⟨he, hi⟩ := hnew
          subst he hi
          refine ⟨epid_shape label, by simp, ?_⟩
          intro q2 v2 hq2
          simp only [List.mem_singleton, Prod.mk.injEq] at hq2
          rw [hq2.1]
          exact quality_shape label
      · rw [heq] at hmem
        rcases mem_mapSet _ _ _ _ hmem with hold | hnew
        · exact hm e1 inner1 hold
        · simp only [Prod.mk.injEq] at hnew
          obtain ⟨he, hi⟩ := hnew
          subst he hi
          refine ⟨epid_shape label, mapSet_ne_nil _ _ _, ?_⟩
          intro q2 v2 hq2
          rcases mem_mapSet _ _ _ _ hq2 with hold2 | hnew2
          · exact (hm _ inner0 (mem_of_mapGet _ _ _ hin)).2.2 q2 v2 hold2
          · simp only [Prod.mk.injEq] at hnew2
            rw [hnew2.1]
            exact quality_shape label)
    [] (by intro e1 inner1 hmem; simp at hmem)
  obtain ⟨h1, h2, h3⟩ := hinv e inner h
  exact ⟨h1, h2, fun q v hmem => ⟨h3 q v hmem, hq q (h3 q v hmem)⟩⟩

/-- C18 at a sequence with a link without tokens and a link with both. -/
theorem correlator_key_shapes_witness :
    (("" = "" ∨ isEpidToken "".data = true) ∧
      [("hdtv", (⟨"Extras", "/x", ""⟩ : EpisodeSimple))] ≠ [] ∧
      ∀ q v, (q, v) ∈ [("hdtv", (⟨"Extras", "/x", ""⟩ : EpisodeSimple))] →
        (q = "hdtv" ∨ isQualityToken q.data = true) ∧ q ≠ "") ∧
    (correlateFrom [] [linkAnchor "Extras" "/x", linkAnchor "X S01E01 1080p" "/ep1"]
      = [("", [("hdtv", ⟨"Extras", "/x", ""⟩)]),
          ("S01E01", [("1080p", ⟨"X S01E01 1080p", "/ep1", ""⟩)])]) :=
  ⟨correlator_key_shapes [linkAnchor "Extras" "/x", linkAnchor "X S01E01 1080p" "/ep1"]
      "" [("hdtv", ⟨"Extras", "/x", ""⟩)] (by decide),
   by decide⟩

/-- What is stored after an anchor wrote a new inner map was stored before,
or is the record written. -/
theorem stored_mapSet_fresh (m : EpisodeMap) (e0 q0 e q : String) (v0 v : EpisodeSimple)
    (h : Stored (mapSet m e0 [(q0, v0)]) e q v) :
    Stored m e q v ∨ (e = e0 ∧ q = q0 ∧ v = v0) := by
  obtain ⟨inner, hmem, hq⟩ := h
  rcases mem_mapSet _ _ _ _ hmem with hold | hnew
  · exact Or.inl ⟨inner, hold, hq⟩
  · simp only [Prod.mk.injEq] at hnew
    obtain ⟨he, hi⟩ := hnew
    subst he hi
    simp only [List.mem_singleton, Prod.mk.injEq] at hq
    exact Or.inr ⟨rfl, hq.1, hq.2⟩

/-- What is stored after an anchor wrote into the inner map that was there
was stored before, or is the record written. -/
theorem stored_mapSet_inner (m : EpisodeMap) (e0 q0 e q : String) (inner0 : QualityMap)
    (v0 v : EpisodeSimple) (hin : mapGet m e0 = some inner0)
    (h : Stored (mapSet m e0 (mapSet inner0 q0 v0)) e q v) :
    Stored m e q v ∨ (e = e0 ∧ q = q0 ∧ v = v0) := by
  obtain ⟨inner, hmem, hq⟩ := h
  rcases mem_mapSet _ _ _ _ hmem with hold | hnew
  · exact Or.inl ⟨inner, hold, hq⟩
  · simp only [Prod.mk.injEq] at hnew
    obtain ⟨he, hi⟩ := hnew
    subst he hi
    rcases mem_mapSet _ _ _ _ hq with hold2 | hnew2
    · exact Or.inl ⟨inner0, mem_of_mapGet _ _ _ hin, hold2⟩
    · simp only [Prod.mk.injEq] at hnew2
      exact Or.inr ⟨rfl, hnew2.1, hnew2.2⟩

/-- What is stored after one anchor was stored before, or was written by
the anchor at the key its label yields. -/
theorem stored_processAnchor (m : EpisodeMap) (s : Node) (e q : String) (v : EpisodeSimple)
    (h : Stored (processAnchor m s) e q v) :
    Stored m e q v ∨
    ∃ label, e = FindString epidRe label ∧ q = qualityOf label ∧ Written m s label v := by
  rcases processAnchor_shape m s with heq | ⟨label, v0, _, hw, heq | ⟨inner0, hin, heq⟩⟩
  · rw [heq] at h
    exact Or.inl h
  · rw [heq] at h
    rcases stored_mapSet_fresh _ _ _ _ _ _ _ h with hold | ⟨he, hq, hv⟩
    · exact Or.inl hold
    · exact Or.inr ⟨label, he, hq, hv ▸ hw⟩
  · rw [heq] at h
    rcases stored_mapSet_inner _ _ _ _ _ _ _ _ hin h with hold | ⟨he, hq, hv⟩
    · exact Or.inl hold
    · exact Or.inr ⟨label, he, hq, hv ▸ hw⟩

/-- Every variant the correlator stores has its provenance in the anchor
sequence. -/
theorem correlateFrom_provenance (anchors : List Node) (e q : String) (v : EpisodeSimple)
    (h : Stored (correlateFrom [] anchors) e q v) : VariantProvenance anchors e q v := by
  have hinv := correlateFrom_invariant
    (fun m => ∀ e q v, Stored m e q v → VariantProvenance anchors e q v) anchors
    (by
      intro m s hs hm e1 q1 v1 hst
      rcases stored_processAnchor m s e1 q1 v1 hst with hold | ⟨label, he, hq, hw⟩
      · exact hm e1 q1 v1 hold
      · rcases hw with ⟨htext, hlabel, u, hhref, hv⟩ |
          ⟨htext, hcls, htitle, hh, hhref, hv | ⟨old, hold, hot, _, hv⟩⟩
        · subst hv hlabel
          exact Or.inr ⟨htext, s, hs, rfl, hhref, he.symm, hq.symm⟩
        · subst hv
          exact Or.inl ⟨rfl, rfl, s, hs, htext, hcls, hhref, label, htitle, he.symm, hq.symm⟩
        · subst hv
          rcases hm _ _ old hold with ⟨hempty, _⟩ | ⟨_, a, ha, hat, hah, hae, haq⟩
          · exact absurd hempty hot
          · exact Or.inr ⟨hot, a, ha, hat, hah, he ▸ hae, hq ▸ haq⟩)
    [] (by
      rintro e1 q1 v1 ⟨inner, hmem, _⟩
      simp at hmem)
  exact hinv e q v h

/-- C20: after the correlator has processed any anchor sequence from the
empty index, every stored variant with an empty title has an empty url.  A
variant with an empty title is the fresh record of a magnet anchor of its
key; a variant with a non-empty title has the text and the href of an
episode-link anchor of its key as title and url.  So the merge test, title
and url both non-empty, fails on a stored variant with a non-empty title
only when the href of that link was the empty string. -/
theorem correlator_variant_shapes (anchors : List Node) (e q : String) (v : EpisodeSimple)
    (h : Stored (correlateFrom [] anchors) e q v) :
    (v.Title = "" → v.URL = "") ∧ VariantProvenance anchors e q v ∧
    (v.Title ≠ "" → ¬ (v.Title ≠ "" ∧ v.URL ≠ "") →
      ∃ a ∈ anchors, a.Text = v.Title ∧ a.Attr "href" = some "" ∧
        FindString epidRe a.Text = e ∧ qualityOf a.Text = q) := by
  have hp := correlateFrom_provenance anchors e q v h
  refine ⟨?_, hp, ?_⟩
  · intro ht
    rcases hp with ⟨_, hu, _⟩ | ⟨hne, _⟩
    · exact hu
    · exact absurd ht hne
  · intro hne hfail
    have hu : v.URL = "" := by
      by_contra hu
      exact hfail ⟨hne, hu⟩
    rcases hp with ⟨hempty, _⟩ | ⟨_, a, ha, hat, hah, hae, haq⟩
    · exact absurd hempty hne
    · exact ⟨a, ha, hat, hu ▸ hah, hae, haq⟩

/-- C20 at a sequence whose link has an empty href, so that its magnet
replaces the entry: the stored variant has empty title and empty url. -/
theorem correlator_variant_shapes_witness :
    correlateFrom [] [linkAnchor "X S01E01" "", magnetAnchor "X S01E01" "magnet:?xt=aaa"]
      = [("S01E01", [("hdtv", ⟨"", "", "magnet:?xt=aaa"⟩)])] ∧
    VariantProvenance [linkAnchor "X S01E01" "", magnetAnchor "X S01E01" "magnet:?xt=aaa"]
      "S01E01" "hdtv" ⟨"", "", "magnet:?xt=aaa"⟩ ∧
    VariantProvenance [linkAnchor "X S01E01" ""] "S01E01" "hdtv" ⟨"X S01E01", "", ""⟩ :=
  ⟨by decide,
   (correlator_variant_shapes
      [linkAnchor "X S01E01" "", magnetAnchor "X S01E01" "magnet:?xt=aaa"]
      "S01E01" "hdtv" ⟨"", "", "magnet:?xt=aaa"⟩
      ⟨[("hdtv", ⟨"", "", "magnet:?xt=aaa"⟩)], by decide, by decide⟩).2.1,
   (correlator_variant_shapes [linkAnchor "X S01E01" ""] "S01E01" "hdtv" ⟨"X S01E01", "", ""⟩
      ⟨[("hdtv", ⟨"X S01E01", "", ""⟩)], by decide, by decide⟩).2.1⟩

/-! ## Pairs of a link and its magnet -/

/-- The last pair with a key, read from the front of the sequence. -/
theorem lastPairAt_cons (p : AnchorPair) (rest : List AnchorPair) (e q : String) :
    lastPairAt (p :: rest) e q =
      match lastPairAt rest e q with
      | some r => some r
      | none => if p.hasKey e q = true then some p else none := by
  unfold lastPairAt
  rw [List.reverse_cons, List.find?_append]
  cases h : List.find? (fun p => p.hasKey e q) rest.reverse with
  | some r => rfl
  | none =>
    by_cases hk : p.hasKey e q = true <;> simp [List.find?, hk]

/-- The merge branch of the magnet upsert leaves every other key as it
was. -/
theorem processAnchor_magnet_merge_frame (m : EpisodeMap) (s : Node) (info h e2 q2 : String)
    (v : EpisodeSimple)
    (htext : s.Text = "") (hcls : s.HasClass "magnet" = true)
    (htitle : s.Attr "title" = some info) (hhref : s.Attr "href" = some h)
    (hv : m.variant (FindString epidRe info) (qualityOf info) = some v)
    (ht : v.Title ≠ "") (hu : v.URL ≠ "")
    (hne : ¬ (e2 = FindString epidRe info ∧ q2 = qualityOf info)) :
    (processAnchor m s).variant e2 q2 = m.variant e2 q2 := by
  rw [processAnchor_magnet_eq m s info h htext hcls htitle hhref]
  obtain ⟨inner, hin, _⟩ := inner_of_variant _ _ _ _ hv
  rw [at_of_variant _ _ _ _ hv, if_pos ⟨ht, hu⟩]
  simp only [hin]
  by_cases he : e2 = FindString epidRe info
  · have hq : q2 ≠ qualityOf info := fun hq => hne ⟨he, hq⟩
    subst he
    exact variant_mapSet_inner_other _ _ _ _ _ _ hin hq
  · exact variant_mapSet_other _ _ _ _ _ he

/-- One well-formed pair writes its variant at its key and leaves every
other key as it was. -/
theorem correlateFrom_pair (m : EpisodeMap) (p : AnchorPair) (hp : p.WellFormed)
    (e q : String) :
    (correlateFrom m p.anchors).variant e q =
      if p.hasKey e q = true then some p.expected else m.variant e q := by
  obtain ⟨htext, ⟨u, hhref, hu⟩, hmt, hmc, ⟨t, htitle, hte, htq⟩, ⟨h, hmh⟩⟩ := hp
  have hstep : correlateFrom m p.anchors = processAnchor (processAnchor m p.link) p.magnet :=
    rfl
  have hlink : (processAnchor m p.link).variant (FindString epidRe t) (qualityOf t)
      = some ⟨p.link.Text, u, ""⟩ := by
    rw [hte, htq]
    exact processAnchor_link_variant m p.link u htext hhref
  rw [hstep]
  by_cases hk : p.hasKey e q = true
  · rw [if_pos hk]
    simp only [AnchorPair.hasKey, Bool.and_eq_true, decide_eq_true_eq] at hk
    have hm := processAnchor_magnet_merge (processAnchor m p.link) p.magnet t h
      ⟨p.link.Text, u, ""⟩ hmt hmc htitle hmh hlink htext hu
    rw [hte, htq, hk.1, hk.2] at hm
    rw [hm]
    simp [AnchorPair.expected, hhref, hmh]
  · rw [if_neg hk]
    simp only [AnchorPair.hasKey, Bool.and_eq_true, decide_eq_true_eq] at hk
    have hne : ¬ (e = FindString epidRe p.link.Text ∧ q = qualityOf p.link.Text) :=
      fun hh => hk ⟨hh.1.symm, hh.2.symm⟩
    have hne2 : ¬ (e = FindString epidRe t ∧ q = qualityOf t) := by
      rw [hte, htq]
      exact hne
    rw [processAnchor_magnet_merge_frame (processAnchor m p.link) p.magnet t h e q
      ⟨p.link.Text, u, ""⟩ hmt hmc htitle hmh hlink htext hu hne2]
    exact processAnchor_link_frame m p.link u e q htext hhref hne

/-- A sequence of well-formed pairs, from any index: at every key the
variant is that of the last pair with the key, or what the index held when
no pair has the key. -/
theorem correlateFrom_pairs (pairs : List AnchorPair) (hp : ∀ p ∈ pairs, p.WellFormed)
    (e q : String) :
    ∀ m : EpisodeMap, (correlateFrom m (pairs.flatMap AnchorPair.anchors)).variant e q =
      match lastPairAt pairs e q with
      | some p => some p.expected
      | none => m.variant e q := by
  induction pairs with
  | nil => exact fun m => rfl
  | cons p rest ih =>
    intro m
    have hrest : ∀ r ∈ rest, r.WellFormed := fun r hr => hp r (List.mem_cons_of_mem _ hr)
    rw [List.flatMap_cons, correlateFrom_append, ih hrest, lastPairAt_cons]
    cases hl : lastPairAt rest e q with
    | some r => rfl
    | none =>
      simp only []
      rw [correlateFrom_pair m p (hp p (List.mem_cons_self _ _)) e q]
      by_cases hk : p.hasKey e q = true <;> simp [hk]

/-- C17: for an anchor sequence made only of pairs, each an episode-link
anchor with non-empty text and non-empty href followed at once by a magnet
anchor whose title yields the same key, the index built from the empty
index holds at every key the variant of the last pair with that key (the
link's text, the link's href, the magnet's href), and holds nothing at a
key that no pair has; so a variant of another quality of the same episode
is never lost. -/
theorem paired_anchors_yield_last_pair (pairs : List AnchorPair)
    (hp : ∀ p ∈ pairs, p.WellFormed) (e q : String) :
    (correlateFrom [] (pairs.flatMap AnchorPair.anchors)).variant e q
      = (lastPairAt pairs e q).map AnchorPair.expected ∧
    ((∀ p ∈ pairs, p.hasKey e q = false) →
      (correlateFrom [] (pairs.flatMap AnchorPair.anchors)).variant e q = none) ∧
    (∀ p ∈ pairs, p.hasKey e q = true →
      ∃ r ∈ pairs, r.hasKey e q = true ∧
        (correlateFrom [] (pairs.flatMap AnchorPair.anchors)).variant e q
          = some r.expected) := by
  have hmain := correlateFrom_pairs pairs hp e q []
  have hfirst : (correlateFrom [] (pairs.flatMap AnchorPair.anchors)).variant e q
      = (lastPairAt pairs e q).map AnchorPair.expected := by
    rw [hmain]
    cases lastPairAt pairs e q <;> rfl
  refine ⟨hfirst, ?_, ?_⟩
  · intro hnone
    rw [hfirst]
    have : lastPairAt pairs e q = none := by
      unfold lastPairAt
      rw [List.find?_eq_none]
      intro x hx
      rw [hnone x (List.mem_reverse.mp hx)]
      exact Bool.false_ne_true
    rw [this]
    rfl
  · intro p hmem hk
    cases hl : lastPairAt pairs e q with
    | none =>
      exfalso
      unfold lastPairAt at hl
      rw [List.find?_eq_none] at hl
      exact hl p (List.mem_reverse.mpr hmem) hk
    | some r =>
      have hr := hl
      unfold lastPairAt at hr
      have hkey : r.hasKey e q = true :=
        @List.find?_some AnchorPair (fun x => x.hasKey e q) r pairs.reverse hr
      refine ⟨r, List.mem_reverse.mp (List.mem_of_find?_eq_some hr), hkey, ?_⟩
      rw [hfirst, hl]
      rfl

/-- The sample pairs are pairs of the common case. -/
theorem samplePairs_wellFormed : ∀ p ∈ samplePairs, p.WellFormed := by
  intro p hp
  simp only [samplePairs, List.mem_cons, List.mem_singleton, List.not_mem_nil, or_false] at hp
  rcases hp with rfl | rfl | rfl
  · exact ⟨by decide, ⟨"/a", by decide, by decide⟩, by decide, by decide,
      ⟨"X S01E01 720p", by decide, by decide, by decide⟩, ⟨"magnet:?xt=a", by decide⟩⟩
  · exact ⟨by decide, ⟨"/b", by decide, by decide⟩, by decide, by decide,
      ⟨"X.S01E01.1080p", by decide, by decide, by decide⟩, ⟨"magnet:?xt=b", by decide⟩⟩
  · exact ⟨by decide, ⟨"/c", by decide, by decide⟩, by decide, by decide,
      ⟨"X S01E01 720p", by decide, by decide, by decide⟩, ⟨"magnet:?xt=c", by decide⟩⟩

/-- C17 at the sample pairs: the 720p key holds the variant of the third
pair, the 1080p key that of the second, and a key without pair holds
nothing. -/
theorem paired_anchors_yield_last_pair_witness :
    (correlateFrom [] (samplePairs.flatMap AnchorPair.anchors)).variant "S01E01" "720p"
      = some ⟨"X S01E01 720p", "/c", "magnet:?xt=c"⟩ ∧
    (correlateFrom [] (samplePairs.flatMap AnchorPair.anchors)).variant "S01E01" "1080p"
      = some ⟨"X S01E01 1080p", "/b", "magnet:?xt=b"⟩ ∧
    (correlateFrom [] (samplePairs.flatMap AnchorPair.anchors)).variant "S01E02" "720p"
      = none :=
  ⟨(paired_anchors_yield_last_pair samplePairs samplePairs_wellFormed "S01E01" "720p").1,
   (paired_anchors_yield_last_pair samplePairs samplePairs_wellFormed "S01E01" "1080p").1,
   (paired_anchors_yield_last_pair samplePairs samplePairs_wellFormed "S01E02" "720p").2.1
     (by decide)⟩

end EzTV
